import Mathlib

/-!
# Verification of the web-novel-translator response-contract pipeline

A shallow embedding of the core of the `web-novel-translator` repository:
the sentinel-marker contract extractor, the per-chapter translation and
retry logic, the multi-chapter translation loop, the segmented glossary
builder, the glossary response parser and the glossary editing helpers.

JavaScript strings are modelled as `List Char`; JS string primitives
(`indexOf`, `lastIndexOf`, `substring`, `trim`, `includes`) are given
executable models below.  Fallible code is modelled with `Option` /
`Except`, thrown exceptions with explicit result constructors, and the
external AI completion calls with oracle functions supplying each call's
outcome.
-/

set_option maxRecDepth 40000

namespace WNT

/-- JS strings are modelled as lists of characters. -/
abbrev Str := List Char

/-- Model of `String.prototype.toLowerCase` (the repository only searches
for ASCII marker strings, for which `Char.toLower` agrees with JS). -/
def lowerStr (s : Str) : Str := s.map Char.toLower

/-- Boolean test that `p` is a prefix of `s` (character-wise equality),
the primitive under the `indexOf` / `startsWith`-style searches below. -/
def strPre : Str → Str → Bool
  | [], _ => true
  | _ :: _, [] => false
  | a :: p, b :: s => a == b && strPre p s

/-- Model of `haystack.indexOf(pat)`: index of the first occurrence of
`pat` in `hay`, `none` when absent. -/
def firstOcc (pat : Str) : Str → Option Nat
  | [] => if strPre pat [] then some 0 else none
  | c :: t => if strPre pat (c :: t) then some 0 else (firstOcc pat t).map (· + 1)

/-- Model of `haystack.lastIndexOf(pat)`: index of the last occurrence of
`pat` in `hay`, `none` when absent. -/
def lastOcc (pat : Str) : Str → Option Nat
  | [] => if strPre pat [] then some 0 else none
  | c :: t =>
    match lastOcc pat t with
    | some i => some (i + 1)
    | none => if strPre pat (c :: t) then some 0 else none

/-- Model of `haystack.includes(pat)` (case-sensitive, like JS). -/
def containsSub (pat hay : Str) : Bool := (firstOcc pat hay).isSome

/-- The JS whitespace class (`\s` and the `trim` character set),
identified by code point. -/
def isJsWs (c : Char) : Bool :=
  let n := c.toNat
  n == 9 || n == 10 || n == 11 || n == 12 || n == 13 || n == 32 ||
  n == 160 || n == 0x1680 || (0x2000 ≤ n && n ≤ 0x200a) ||
  n == 0x2028 || n == 0x2029 || n == 0x202f || n == 0x205f ||
  n == 0x3000 || n == 0xfeff

/-- The JS digit class `\d`. -/
def isJsDigit (c : Char) : Bool := 48 ≤ c.toNat && c.toNat ≤ 57

/-- Model of `s.trim()`. -/
def jsTrim (s : Str) : Str :=
  ((s.dropWhile isJsWs).reverse.dropWhile isJsWs).reverse

/-- Model of `s.substring(a, b)` (clamps both indices to the length and
swaps them when given in descending order, as JS does). -/
def jsSubstring (s : Str) (a b : Nat) : Str :=
  let a' := min a s.length
  let b' := min b s.length
  (s.take (max a' b')).drop (min a' b')

theorem strPre_nil (p : Str) : strPre p [] = true ↔ p = [] := by
  cases p <;> simp [strPre]

theorem strPre_iff_exists (p s : Str) : strPre p s = true ↔ ∃ t, p ++ t = s := by
  induction p generalizing s with
  | nil => simp [strPre]
  | cons a p ih =>
    cases s with
    | nil => simp [strPre]
    | cons b s =>
      simp only [strPre, Bool.and_eq_true, beq_iff_eq, ih, List.cons_append,
        List.cons.injEq]
      constructor
      · rintro ⟨rfl, t, rfl⟩; exact ⟨t, rfl, rfl⟩
      · rintro ⟨t, rfl, rfl⟩; exact ⟨rfl, t, rfl⟩

theorem strPre_length_le {p s : Str} (h : strPre p s = true) : p.length ≤ s.length := by
  obtain ⟨t, rfl⟩ := (strPre_iff_exists p s).1 h
  simp

/-- `firstOcc` finds an occurrence, and the least one. -/
theorem firstOcc_eq_some_iff (pat hay : Str) (i : Nat) :
    firstOcc pat hay = some i ↔
      strPre pat (hay.drop i) = true ∧ ∀ j, j < i → strPre pat (hay.drop j) = false := by
  induction hay generalizing i with
  | nil =>
    simp only [firstOcc, List.drop_nil]
    by_cases h : strPre pat [] = true
    · simp only [if_pos h, Option.some.injEq]
      constructor
      · rintro rfl; exact ⟨h, by omega⟩
      · rintro ⟨-, hmin⟩
        by_contra hne
        have : 0 < i := Nat.pos_of_ne_zero (by omega)
        have := hmin 0 this
        rw [h] at this; cases this
    · simp only [if_neg h]
      constructor
      · rintro ⟨⟩
      · rintro ⟨hocc, -⟩
        exact absurd hocc h
  | cons c t ih =>
    simp only [firstOcc]
    by_cases h : strPre pat (c :: t) = true
    · simp only [if_pos h, Option.some.injEq]
      constructor
      · rintro rfl; exact ⟨by simpa using h, by omega⟩
      · rintro ⟨-, hmin⟩
        by_contra hne
        have : 0 < i := Nat.pos_of_ne_zero (by omega)
        have := hmin 0 this
        simp only [List.drop_zero] at this
        rw [h] at this; cases this
    · simp only [if_neg h, Option.map_eq_some']
      constructor
      · rintro ⟨k, hk, rfl⟩
        obtain ⟨hocc, hmin⟩ := (ih k).1 hk
        refine ⟨by simpa using hocc, ?_⟩
        intro j hj
        cases j with
        | zero => simpa using Bool.eq_false_iff.2 h
        | succ j =>
          have : j < k := by omega
          simpa using hmin j this
      · rintro ⟨hocc, hmin⟩
        cases i with
        | zero =>
          simp only [List.drop_zero] at hocc
          exact absurd hocc h
        | succ k =>
          refine ⟨k, (ih k).2 ⟨by simpa using hocc, ?_⟩, rfl⟩
          intro j hj
          simpa using hmin (j + 1) (by omega)

theorem firstOcc_eq_none_iff (pat hay : Str) :
    firstOcc pat hay = none ↔ ∀ j, strPre pat (hay.drop j) = false := by
  induction hay with
  | nil =>
    simp only [firstOcc, List.drop_nil]
    by_cases h : strPre pat [] = true
    · simp only [if_pos h]
      constructor
      · rintro ⟨⟩
      · intro hall; rw [hall 0] at h; cases h
    · simp only [if_neg h]
      exact ⟨fun _ j => Bool.eq_false_iff.2 h, fun _ => by trivial⟩
  | cons c t ih =>
    simp only [firstOcc]
    by_cases h : strPre pat (c :: t) = true
    · simp only [if_pos h]
      constructor
      · rintro ⟨⟩
      · intro hall
        have := hall 0
        simp only [List.drop_zero] at this
        rw [h] at this; cases this
    · simp only [if_neg h, Option.map_eq_none', ih]
      constructor
      · intro hall j
        cases j with
        | zero => simpa using Bool.eq_false_iff.2 h
        | succ j => simpa using hall j
      · intro hall j
        simpa using hall (j + 1)

theorem lastOcc_some_occ (pat hay : Str) (i : Nat) (h : lastOcc pat hay = some i) :
    strPre pat (hay.drop i) = true := by
  induction hay generalizing i with
  | nil =>
    simp only [lastOcc] at h
    by_cases hp : strPre pat [] = true
    · rw [if_pos hp] at h
      cases h
      simpa using hp
    · rw [if_neg hp] at h
      cases h
  | cons c t ih =>
    simp only [lastOcc] at h
    cases hrec : lastOcc pat t with
    | some k =>
      rw [hrec] at h
      cases h
      simpa using ih k hrec
    | none =>
      rw [hrec] at h
      by_cases hp : strPre pat (c :: t) = true
      · rw [if_pos hp] at h
        cases h
        simpa using hp
      · rw [if_neg hp] at h
        cases h

theorem lastOcc_eq_none_iff (pat hay : Str) :
    lastOcc pat hay = none ↔ ∀ j, strPre pat (hay.drop j) = false := by
  induction hay with
  | nil =>
    simp only [lastOcc, List.drop_nil]
    by_cases h : strPre pat [] = true
    · simp only [if_pos h]
      constructor
      · rintro ⟨⟩
      · intro hall; rw [hall 0] at h; cases h
    · simp only [if_neg h]
      exact ⟨fun _ j => Bool.eq_false_iff.2 h, fun _ => by trivial⟩
  | cons c t ih =>
    simp only [lastOcc]
    cases hrec : lastOcc pat t with
    | some k =>
      have hocc := lastOcc_some_occ pat t k hrec
      constructor
      · rintro ⟨⟩
      · intro hall
        have := hall (k + 1)
        simp only [List.drop_succ_cons] at this
        rw [hocc] at this; cases this
    | none =>
      by_cases h : strPre pat (c :: t) = true
      · simp only [if_pos h]
        constructor
        · rintro ⟨⟩
        · intro hall
          have := hall 0
          simp only [List.drop_zero] at this
          rw [h] at this; cases this
      · simp only [if_neg h]
        constructor
        · intro _ j
          cases j with
          | zero => simpa using Bool.eq_false_iff.2 h
          | succ j => simpa using (ih.1 hrec) j
        · intro _; trivial

/-- `lastOcc` finds an occurrence, and the greatest one (for a nonempty
pattern, as all marker strings are). -/
theorem lastOcc_eq_some_iff (pat hay : Str) (i : Nat) (hp : pat ≠ []) :
    lastOcc pat hay = some i ↔
      strPre pat (hay.drop i) = true ∧ ∀ j, i < j → strPre pat (hay.drop j) = false := by
  induction hay generalizing i with
  | nil =>
    have h : strPre pat [] = false := by
      by_cases hpat : strPre pat [] = true
      · exact absurd ((strPre_nil pat).1 hpat) hp
      · simpa using hpat
    simp only [lastOcc, List.drop_nil, if_neg (by simp [h] : ¬ strPre pat [] = true)]
    constructor
    · rintro ⟨⟩
    · rintro ⟨hocc, -⟩
      rw [h] at hocc; cases hocc
  | cons c t ih =>
    simp only [lastOcc]
    cases hrec : lastOcc pat t with
    | some k =>
      have hk := (ih k).1 hrec
      constructor
      · rintro ⟨⟩
        refine ⟨by simpa using hk.1, ?_⟩
        intro j hj
        match j, hj with
        | j + 1, hj => simpa using hk.2 j (by omega)
      · rintro ⟨hocc, hmax⟩
        rcases Nat.lt_trichotomy i (k + 1) with hlt | rfl | hgt
        · exfalso
          have := hmax (k + 1) hlt
          simp only [List.drop_succ_cons] at this
          rw [hk.1] at this; cases this
        · rfl
        · exfalso
          match i, hgt with
          | i + 1, hgt =>
            have := hk.2 i (by omega)
            simp only [List.drop_succ_cons] at hocc
            rw [hocc] at this; cases this
    | none =>
      have hnone := (lastOcc_eq_none_iff pat t).1 hrec
      by_cases h : strPre pat (c :: t) = true
      · simp only [if_pos h]
        constructor
        · rintro ⟨⟩
          refine ⟨by simpa using h, ?_⟩
          intro j hj
          match j, hj with
          | j + 1, _ => simpa using hnone j
        · rintro ⟨hocc, -⟩
          match i with
          | 0 => rfl
          | i + 1 =>
            exfalso
            simp only [List.drop_succ_cons] at hocc
            rw [hnone i] at hocc; cases hocc
      · simp only [if_neg h]
        constructor
        · rintro ⟨⟩
        · rintro ⟨hocc, -⟩
          exfalso
          match i with
          | 0 => simp only [List.drop_zero] at hocc; rw [hocc] at h; exact h rfl
          | i + 1 =>
            simp only [List.drop_succ_cons] at hocc
            rw [hnone i] at hocc; cases hocc

/-! ## Sentinel markers (`TRANSLATION_MARKERS` in `prompts.ts`) -/

/-- `TRANSLATION_MARKERS.START_MARKERS`, in source order. -/
def START_MARKERS : List Str :=
  ["***TRANSLATION_START***", "\x7b\x7bstart\x7d\x7d", "\x7b\x7b start \x7d\x7d",
   "\x7bstart\x7d", "START:", "**START**"].map String.toList

/-- `TRANSLATION_MARKERS.END_MARKERS`, in source order. -/
def END_MARKERS : List Str :=
  ["***TRANSLATION_END***", "\x7b\x7bend\x7d\x7d", "\x7b\x7b end \x7d\x7d",
   "\x7bend\x7d", "END:", "**END**"].map String.toList

/-- The start-marker search loop of `extractTranslationText`: walk the
variant list in order, and return the first (case-insensitive) occurrence
index of the first variant that occurs at all, together with that
variant's length. -/
def findMarkerFirst (markers : List Str) (text : Str) : Option (Nat × Nat) :=
  match markers with
  | [] => none
  | m :: rest =>
    match firstOcc (lowerStr m) (lowerStr text) with
    | some i => some (i, m.length)
    | none => findMarkerFirst rest text

/-- The end-marker search loop of `extractTranslationText`: walk the
variant list in order, and return the last (case-insensitive) occurrence
index of the first variant that occurs at all, together with that
variant's length. -/
def findMarkerLast (markers : List Str) (text : Str) : Option (Nat × Nat) :=
  match markers with
  | [] => none
  | m :: rest =>
    match lastOcc (lowerStr m) (lowerStr text) with
    | some i => some (i, m.length)
    | none => findMarkerLast rest text

theorem findMarkerFirst_eq_none_iff (markers : List Str) (text : Str) :
    findMarkerFirst markers text = none ↔
      ∀ m ∈ markers, firstOcc (lowerStr m) (lowerStr text) = none := by
  induction markers with
  | nil => simp [findMarkerFirst]
  | cons m rest ih =>
    simp only [findMarkerFirst, List.mem_cons]
    cases h : firstOcc (lowerStr m) (lowerStr text) with
    | some i =>
      constructor
      · rintro ⟨⟩
      · intro hall
        rw [hall m (Or.inl rfl)] at h; cases h
    | none =>
      rw [ih]
      constructor
      · intro hall m' hm'
        rcases hm' with rfl | hm'
        · exact h
        · exact hall m' hm'
      · intro hall m' hm'
        exact hall m' (Or.inr hm')

/-- If the variants before index `k` are absent and variant `k` occurs,
the search settles on variant `k`. -/
theorem findMarkerFirst_eq_of (markers : List Str) (text : Str) (k : Nat) (m : Str) (i : Nat)
    (hk : markers.get? k = some m)
    (hprev : ∀ k' m', k' < k → markers.get? k' = some m' →
      firstOcc (lowerStr m') (lowerStr text) = none)
    (hm : firstOcc (lowerStr m) (lowerStr text) = some i) :
    findMarkerFirst markers text = some (i, m.length) := by
  induction markers generalizing k with
  | nil => simp at hk
  | cons m₀ rest ih =>
    cases k with
    | zero =>
      simp only [List.get?] at hk
      cases hk
      simp [findMarkerFirst, hm]
    | succ k =>
      simp only [List.get?] at hk
      have h0 : firstOcc (lowerStr m₀) (lowerStr text) = none :=
        hprev 0 m₀ (Nat.succ_pos k) rfl
      simp only [findMarkerFirst, h0]
      exact ih k hk (fun k' m' hk' hget => hprev (k' + 1) m' (by omega) hget)

theorem findMarkerLast_eq_of (markers : List Str) (text : Str) (k : Nat) (m : Str) (i : Nat)
    (hk : markers.get? k = some m)
    (hprev : ∀ k' m', k' < k → markers.get? k' = some m' →
      lastOcc (lowerStr m') (lowerStr text) = none)
    (hm : lastOcc (lowerStr m) (lowerStr text) = some i) :
    findMarkerLast markers text = some (i, m.length) := by
  induction markers generalizing k with
  | nil => simp at hk
  | cons m₀ rest ih =>
    cases k with
    | zero =>
      simp only [List.get?] at hk
      cases hk
      simp [findMarkerLast, hm]
    | succ k =>
      simp only [List.get?] at hk
      have h0 : lastOcc (lowerStr m₀) (lowerStr text) = none :=
        hprev 0 m₀ (Nat.succ_pos k) rfl
      simp only [findMarkerLast, h0]
      exact ih k hk (fun k' m' hk' hget => hprev (k' + 1) m' (by omega) hget)

/-! ## The chapter-title recovery pattern

`extractTranslationText` recovers a missing start marker by matching the
regex `/(?:^|\n)\s*([^\n]+\s*\[chapter:\s*\d+\])/i` against the text
before the end marker and cutting from `match.index`.  The regex is
modelled denotationally: a match starts at `p` iff the alternation
`(?:^|\n)` applies at `p` and the rest of the pattern matches a prefix of
the remaining text; `match.index` is the least such `p` (JS regexes
return the leftmost match). -/

/-- After the literal `[chapter:`, the pattern `\s*\d+\]` matches a
prefix of `r`.  Since `\s`, `\d` and `]` are pairwise disjoint character
classes, greedy maximal munch is equivalent to the backtracking
semantics. -/
def tagTailCheck (r : Str) : Bool :=
  !(((r.dropWhile isJsWs).takeWhile isJsDigit).isEmpty) &&
  (((r.dropWhile isJsWs).drop
      (((r.dropWhile isJsWs).takeWhile isJsDigit).length)).head? == some ']')

/-- `\[chapter:\s*\d+\]` matches (case-insensitively) a prefix of `s`. -/
def tagMatch (s : Str) : Bool :=
  strPre (lowerStr "[chapter:".toList) (lowerStr s) && tagTailCheck (s.drop 9)

/-- `P` can be split as `\s*` ++ `[^\n]+` ++ `\s*` (the part of the title
pattern before the bracketed tag). -/
def wsBodyWs (P : Str) : Bool :=
  (List.range (P.length + 1)).any fun k1 =>
    (List.range (P.length + 1)).any fun k2 =>
      decide (k1 < k2) &&
      (P.take k1).all isJsWs &&
      ((P.take k2).drop k1).all (fun c => !(c == '\n')) &&
      (P.drop k2).all isJsWs

/-- `\s*[^\n]+\s*\[chapter:\s*\d+\]` matches a prefix of `r`. -/
def tailTitleMatch (r : Str) : Bool :=
  (List.range (r.length + 1)).any fun q =>
    wsBodyWs (r.take q) && tagMatch (r.drop q)

/-- A match of the full title regex starts at position `p` of `t`:
either the `^` alternative applies (`p = 0`), or the character at `p` is
the `\n` consumed by the `(?:^|\n)` group, and in both cases the rest of
the pattern matches from there. -/
def titleStartsAt (t : Str) (p : Nat) : Bool :=
  (p == 0 && tailTitleMatch t) ||
  (((t.drop p).head? == some '\n') && tailTitleMatch ((t.drop p).drop 1))

/-- `match.index` of the title regex on `t`: the least position where a
match starts, `none` when the regex does not match. -/
def titleMatchIdx (t : Str) : Option Nat :=
  (List.range (t.length + 1)).find? (fun p => titleStartsAt t p)

/-! ## `extractTranslationText` (`storage.ts`) -/

/-- `extractTranslationText`: `some payload` models `{success: true,
text: payload}`, `none` models `{success: false}`. -/
def extractTranslationText (fullText : Str) : Option Str :=
  match findMarkerFirst START_MARKERS fullText, findMarkerLast END_MARKERS fullText with
  | some (startIndex, startLen), some (endIndex, _) =>
    if startIndex < endIndex then
      let extracted := jsTrim (jsSubstring fullText (startIndex + startLen) endIndex)
      if extracted.isEmpty then none else some extracted
    else none
  | none, some (endIndex, _) =>
    -- missing start marker: recovery via the chapter-title-line pattern
    let beforeEndMarker := jsSubstring fullText 0 endIndex
    match titleMatchIdx beforeEndMarker with
    | some m =>
      let extracted := jsTrim (beforeEndMarker.drop m)
      if extracted.isEmpty then none else some extracted
    | none => none
  | _, _ => none

/-! ## Chapter translation and retry (`storage.ts`) -/

/-- `TranslationResult` of `storage.ts`. -/
structure TranslationResult where
  success : Bool
  text : Option Str := none
  error : Option Str := none
  fullResponse : Option Str := none
deriving DecidableEq

/-- The outcome of the streamed completion call inside
`translateSingleChapter` (the external AI collaborator): either the
concatenated response text, or a thrown error carrying a message. -/
inductive ApiOutcome where
  | text (fullText : Str)
  | err (msg : Str)

/-- What one `await translateSingleChapter(...)` does, as seen by a
caller: return a `TranslationResult`, throw
`TranslationWithoutMarkersError`, or throw an ordinary error. -/
inductive AttemptOut where
  | result (r : TranslationResult)
  | thrownWithoutMarkers (fullText : Str)
  | thrownErr (msg : Str)
deriving DecidableEq

def emptyContentMsg : Str :=
  "Translation returned empty content. The chapter might be blocked or inaccessible.".toList

def noMarkersMsg : Str :=
  "Translation markers not found and response doesn\x27t appear to be a valid translation.".toList

def exhaustedMsg : Str :=
  "Failed to translate chapter after multiple fresh attempts.".toList

/-- `translateSingleChapter` (`storage.ts`), as a function of the
completion call's outcome.  Its surrounding `try`/`catch` turns every
thrown error except `TranslationWithoutMarkersError` into a returned
`{success: false}` result, so `AttemptOut.thrownErr` never arises here. -/
def translateSingleChapter (api : ApiOutcome) : AttemptOut :=
  match api with
  | .err msg => .result { success := false, error := some msg }
  | .text fullText =>
    if (jsTrim fullText).isEmpty then
      .result { success := false, error := some emptyContentMsg }
    else
      match extractTranslationText fullText with
      | some t => .result { success := true, text := some t }
      | none =>
        if containsSub "[chapter:".toList fullText ||
           containsSub "chapter".toList fullText ||
           decide (fullText.length > 100) then
          .thrownWithoutMarkers fullText
        else
          .result { success := false, error := some noMarkersMsg,
                    fullResponse := some fullText }

/-- The non-retryable-message classifier inside
`translateChapterWithRetry`. -/
def isNonRetryable (msg : Str) : Bool :=
  containsSub "403".toList msg ||
  containsSub "blocked".toList msg ||
  containsSub "access denied".toList msg ||
  containsSub "ByteString".toList msg ||
  containsSub "character at index".toList msg ||
  containsSub "greater than 255".toList msg ||
  containsSub "empty content".toList msg ||
  containsSub "markers".toList msg ||
  containsSub "inaccessible".toList msg

/-- The overall outcome of `translateChapterWithRetry`: a returned
`TranslationResult` or a re-thrown `TranslationWithoutMarkersError`. -/
inductive RetryOut where
  | returned (r : TranslationResult)
  | thrownWithoutMarkers (fullText : Str)
deriving DecidableEq

/-- The `while (retries < maxRetries)` loop of
`translateChapterWithRetry`, with the remaining iteration count
`fuel = maxRetries - retries` as the structural argument (so `fuel = 0`
is exactly the loop's exit condition).  `att n` is the outcome of the
attempt made in the iteration that starts with `retries = n`; the
returned `Nat` is the number of attempts made. -/
def retryGo (att : Nat → AttemptOut) : (fuel retries : Nat) → RetryOut × Nat
  | 0, retries => (.returned { success := false, error := some exhaustedMsg }, retries)
  | fuel + 1, retries =>
    match att retries with
    | .result r => (.returned r, retries + 1)
    | .thrownWithoutMarkers t => (.thrownWithoutMarkers t, retries + 1)
    | .thrownErr msg =>
      if isNonRetryable msg then
        (.returned { success := false,
                     error := some (msg ++ " (non-retryable error)".toList) }, retries + 1)
      else
        retryGo att fuel (retries + 1)

/-- `translateChapterWithRetry` (`storage.ts`), default `maxRetries = 3`,
over an oracle giving each attempt's outcome. -/
def translateChapterWithRetry (att : Nat → AttemptOut) (maxRetries : Nat := 3) :
    RetryOut × Nat :=
  retryGo att maxRetries 0

/-! ## The multi-chapter translation loop and chapter-list operations
(`App.tsx`) -/

/-- A translated chapter record. -/
structure Chapter where
  chapterNumber : Nat
  translatedText : Str
deriving DecidableEq

/-- Outcome of `callGeminiApi` for one chapter: the translated text, or a
thrown error (terminal failure or `TRANSLATION_WITHOUT_MARKERS`). -/
inductive ChapterCallOut where
  | ok (t : Str)
  | err (msg : Str)
deriving DecidableEq

/-- Result of `handleTranslate`: all chapters done, or the loop halted at
a failing chapter.  `haltedAt n done count` models the `catch` branch:
`setTranslatedChapters(done)`, `setFallbackChapterNumber(n)` and the
status message reporting the failing chapter `n` and the completed count
(`done.length`). -/
inductive TranslateRunResult where
  | completed (chapters : List Chapter)
  | haltedAt (failedChapter : Nat) (chapters : List Chapter) (completedCount : Nat)
deriving DecidableEq

/-- The chapter list carried by either outcome of `handleTranslate`. -/
def TranslateRunResult.chapters : TranslateRunResult → List Chapter
  | .completed cs => cs
  | .haltedAt _ cs _ => cs

/-- The `for (let i = 0; i < numChapters; i++)` loop of
`handleTranslate`: skip chapters already present, append each successful
translation, and on a thrown error stop immediately, keeping everything
translated so far and reporting the failing chapter number and the
completed count. -/
def translateLoop (call : Nat → ChapterCallOut) (startChapter : Nat) :
    (fuel i : Nat) → List Chapter → TranslateRunResult
  | 0, _, cur => .completed cur
  | fuel + 1, i, cur =>
    let chapterNumber := startChapter + i
    if cur.any (fun c => c.chapterNumber == chapterNumber) then
      translateLoop call startChapter fuel (i + 1) cur
    else
      match call chapterNumber with
      | .ok t => translateLoop call startChapter fuel (i + 1)
          (cur ++ [{ chapterNumber := chapterNumber, translatedText := t }])
      | .err _ => .haltedAt chapterNumber cur cur.length

/-- `handleTranslate` (`App.tsx`): starts from the previously translated
chapters (`newTranslatedChapters = [...translatedChapters]`) and runs
the loop for `numChapters` iterations (`fuel = numChapters - i` is the
remaining iteration count, so `fuel = 0` is exactly the loop's exit
condition `i ≥ numChapters`). -/
def handleTranslate (translatedChapters : List Chapter) (startChapter numChapters : Nat)
    (call : Nat → ChapterCallOut) : TranslateRunResult :=
  translateLoop call startChapter numChapters 0 translatedChapters

/-- The two manual fallback modes of `App.tsx`. -/
inductive FallbackType where
  | japanese
  | english

/-- `handleFallbackSubmit` (`App.tsx`), returning the updated chapter
list.  In English mode the trimmed text is appended directly; in
Japanese mode the completion call's response is cut between the literal
(case-sensitive) `{{start}}` / `{{end}}` markers when both are present
in order, and appended; a thrown call error leaves the list unchanged. -/
def handleFallbackSubmit (translatedChapters : List Chapter)
    (fallbackChapterNumber : Nat) (fallbackType : FallbackType) (fallbackText : Str)
    (api : ApiOutcome) : List Chapter :=
  if (jsTrim fallbackText).isEmpty then translatedChapters
  else
    match fallbackType with
    | .english =>
      translatedChapters ++
        [{ chapterNumber := fallbackChapterNumber, translatedText := jsTrim fallbackText }]
    | .japanese =>
      match api with
      | .err _ => translatedChapters
      | .text fullText =>
        let startMarker : Str := "\x7b\x7bstart\x7d\x7d".toList
        let endMarker : Str := "\x7b\x7bend\x7d\x7d".toList
        let extractedText :=
          match firstOcc startMarker fullText, lastOcc endMarker fullText with
          | some startIndex, some endIndex =>
            if startIndex < endIndex then
              jsTrim (jsSubstring fullText (startIndex + startMarker.length) endIndex)
            else fullText
          | _, _ => fullText
        translatedChapters ++
          [{ chapterNumber := fallbackChapterNumber, translatedText := extractedText }]

/-- `handleSaveEdit` (`App.tsx`): replace the text of the chapter being
edited. -/
def editChapter (translatedChapters : List Chapter) (editingChapter : Nat)
    (editText : Str) : List Chapter :=
  translatedChapters.map fun ch =>
    if ch.chapterNumber == editingChapter then
      { ch with translatedText := editText }
    else ch

/-- `handleDeleteChapter` (`App.tsx`). -/
def deleteChapter (translatedChapters : List Chapter) (chapterNumber : Nat) :
    List Chapter :=
  translatedChapters.filter fun ch => ch.chapterNumber != chapterNumber

/-- The chapter numbers of a chapter list. -/
def chapterNumbers (cs : List Chapter) : List Nat := cs.map (·.chapterNumber)

/-- The uniqueness invariant claimed for the translated-chapter
collection. -/
def uniqueChapters (cs : List Chapter) : Prop := (chapterNumbers cs).Nodup

instance (cs : List Chapter) : Decidable (uniqueChapters cs) := by
  unfold uniqueChapters
  infer_instance

/-! ## Glossary data model (`types/glossary.ts`) -/

inductive Importance where
  | major
  | minor
  | background
deriving DecidableEq

/-- `Character` (`types/glossary.ts`); `?`-fields are `Option`s. -/
structure Character where
  id : Str
  japaneseName : Str
  englishName : Str
  age : Option Str := none
  gender : Option Str := none
  height : Option Str := none
  physicalAppearance : Option Str := none
  description : Str
  importance : Importance
  firstAppearance : Option Nat := none
  occurrenceCount : Nat
  lastModified : Nat
deriving DecidableEq

/-- A chapter range `{start, end}` (`end` is a reserved word in Lean, so
the field is called `stop`). -/
structure ChapterRange where
  start : Nat
  stop : Nat
deriving DecidableEq

structure GlossarySegment where
  id : Str
  characters : List Character
  seriesName : Str
  chapterRange : ChapterRange
  segmentNumber : Nat
  generatedAt : Nat
  lastModified : Nat
deriving DecidableEq

/-- `GlossaryCollection`; `lastProcessedChapter` is the extra field set
by `generateGlossarySegments`. -/
structure GlossaryCollection where
  seriesName : Str
  segments : List GlossarySegment
  totalChapterRange : ChapterRange
  lastProcessedChapter : Nat
  createdAt : Nat
  lastModified : Nat
deriving DecidableEq

/-- The legacy `Glossary` record, produced by `parseGlossaryResponse`. -/
structure Glossary where
  characters : List Character
  seriesName : Str
  chapterRange : ChapterRange
  lastProcessedChapter : Nat
  generatedAt : Nat
  lastModified : Nat
deriving DecidableEq

/-! ## Glossary segment builder (`services/glossaryService.ts`) -/

/-- One entry of the previous-characters context payload built by
`generateSegmentPrompt`. -/
structure ContextCharacter where
  japaneseName : Str
  englishName : Str
  importance : Importance
  description : Str
  segmentLastSeen : Nat
deriving DecidableEq

/-- `allPreviousCharacters` of `generateSegmentPrompt`: every character
of every previous segment, flattened in segment order. -/
def segmentContextEntries (previousSegments : List GlossarySegment) : List ContextCharacter :=
  previousSegments.flatMap fun seg =>
    seg.characters.map fun c =>
      { japaneseName := c.japaneseName, englishName := c.englishName,
        importance := c.importance, description := c.description,
        segmentLastSeen := seg.segmentNumber }

/-- The context payload embedded in a segment's generation request:
`none` when there are no previous segments (no context section at all),
otherwise `allPreviousCharacters.slice(0, 30)`. -/
def segmentContextPayload (previousSegments : List GlossarySegment) :
    Option (List ContextCharacter) :=
  if previousSegments.isEmpty then none
  else some ((segmentContextEntries previousSegments).take 30)

/-- The chapter sub-range of segment index `idx` (0-based):
`start = chapterRange.start + idx*10`,
`end = chapterRange.start + min(idx*10 + 10, totalChapters) - 1`. -/
def mkSegRange (rangeStart totalChapters idx : Nat) : ChapterRange :=
  { start := rangeStart + idx * 10,
    stop := rangeStart + min (idx * 10 + 10) totalChapters - 1 }

/-- The `GlossarySegment` record built for a successfully parsed segment
(the source id embeds `Date.now()`; identifiers are abstracted to `[]`,
timestamps to the `now` parameter). -/
def mkSegment (seriesName : Str) (rangeStart totalChapters now idx : Nat)
    (cs : List Character) : GlossarySegment :=
  { id := [], characters := cs, seriesName := seriesName,
    chapterRange := mkSegRange rangeStart totalChapters idx,
    segmentNumber := idx + 1, generatedAt := now, lastModified := now }

/-- Per-segment outcome of the request-plus-parse step, supplied by an
oracle:
* `parsedChars cs`: the completion call succeeded (possibly after its
  internal rate-limit backoff retries) and `parseGlossaryResponse`
  produced a glossary with characters `cs`;
* `emptyResponse`: the call succeeded but the response text was empty —
  the segment is skipped;
* `parseFailure`: `parseGlossaryResponse` returned `null` — the segment
  is skipped;
* `requestAbort msg`: the call threw a non-rate-limit error, or rate
  limit retries were exhausted — the exception propagates to the outer
  `catch`, aborting the whole run. -/
inductive SegAttemptOut where
  | parsedChars (cs : List Character)
  | emptyResponse
  | parseFailure
  | requestAbort (msg : Str)

def SegAttemptOut.isParsed : SegAttemptOut → Bool
  | .parsedChars _ => true
  | _ => false

/-- Result record of `generateGlossarySegments`, together with the trace
of the context payloads embedded in each attempted segment request (in
attempt order). -/
structure SegGenResult where
  success : Bool
  collection : Option GlossaryCollection := none
  error : Option Str := none
  prompts : List (Option (List ContextCharacter)) := []
deriving DecidableEq

/-- The segment loop of `generateGlossarySegments`: for each segment
index, build the prompt context from all segments built so far, run the
request, and append the parsed segment (or skip it, or abort). Returns
the built segments, the payload trace, and the abort message if any. -/
def segLoop (oracle : Nat → SegAttemptOut) (seriesName : Str)
    (rangeStart totalChapters now : Nat) :
    (fuel idx : Nat) → List GlossarySegment → List (Option (List ContextCharacter)) →
    List GlossarySegment × List (Option (List ContextCharacter)) × Option Str
  | 0, _, segments, trace => (segments, trace, none)
  | fuel + 1, idx, segments, trace =>
    let payload := segmentContextPayload segments
    match oracle idx with
    | .requestAbort msg => (segments, trace ++ [payload], some msg)
    | .emptyResponse =>
      segLoop oracle seriesName rangeStart totalChapters now fuel (idx + 1)
        segments (trace ++ [payload])
    | .parseFailure =>
      segLoop oracle seriesName rangeStart totalChapters now fuel (idx + 1)
        segments (trace ++ [payload])
    | .parsedChars cs =>
      segLoop oracle seriesName rangeStart totalChapters now fuel (idx + 1)
        (segments ++ [mkSegment seriesName rangeStart totalChapters now idx cs])
        (trace ++ [payload])

def noSegmentsMsg : Str := "No segments were successfully generated".toList

/-- `generateGlossarySegments` (`services/glossaryService.ts`):
`segmentSize = 10`, `totalSegments = ceil(totalChapters / 10)`.  On a
thrown error the outer `catch` returns failure; otherwise success is
declared iff at least one segment was built, and the collection records
`lastProcessedChapter = chapterRange.start + segments.length*10 - 1`. -/
def generateGlossarySegments (seriesName : Str) (chapterUrls : List Str)
    (rangeStart rangeStop now : Nat) (oracle : Nat → SegAttemptOut) : SegGenResult :=
  let totalChapters := chapterUrls.length
  let totalSegments := (totalChapters + 9) / 10
  match segLoop oracle seriesName rangeStart totalChapters now totalSegments 0 [] [] with
  | (_, trace, some msg) =>
    { success := false, error := some msg, prompts := trace }
  | (segments, trace, none) =>
    if segments.isEmpty then
      { success := false, error := some noSegmentsMsg, prompts := trace }
    else
      { success := true,
        collection := some
          { seriesName := seriesName, segments := segments,
            totalChapterRange := { start := rangeStart, stop := rangeStop },
            lastProcessedChapter := rangeStart + segments.length * 10 - 1,
            createdAt := now, lastModified := now },
        prompts := trace }

/-! ## Glossary collection editing (`updateCharacterInGlossaryCollection`) -/

/-- `Partial<Character>`: each field may or may not be present in the
update object. -/
structure CharacterUpdates where
  id : Option Str := none
  japaneseName : Option Str := none
  englishName : Option Str := none
  age : Option (Option Str) := none
  gender : Option (Option Str) := none
  height : Option (Option Str) := none
  physicalAppearance : Option (Option Str) := none
  description : Option Str := none
  importance : Option Importance := none
  firstAppearance : Option (Option Nat) := none
  occurrenceCount : Option Nat := none
  lastModified : Option Nat := none

/-- `{ ...char, ...updates, lastModified: Date.now() }`: fields present
in `updates` win over `char`, and `lastModified` is always refreshed
last. -/
def applyCharacterUpdates (c : Character) (u : CharacterUpdates) (now : Nat) : Character :=
  { id := u.id.getD c.id,
    japaneseName := u.japaneseName.getD c.japaneseName,
    englishName := u.englishName.getD c.englishName,
    age := u.age.getD c.age,
    gender := u.gender.getD c.gender,
    height := u.height.getD c.height,
    physicalAppearance := u.physicalAppearance.getD c.physicalAppearance,
    description := u.description.getD c.description,
    importance := u.importance.getD c.importance,
    firstAppearance := u.firstAppearance.getD c.firstAppearance,
    occurrenceCount := u.occurrenceCount.getD c.occurrenceCount,
    lastModified := now }

/-- `updateCharacterInGlossaryCollection` (glossary service): in every
segment containing a character with the given id, update the matching
characters and refresh the segment's `lastModified`; leave other
segments untouched; refresh the collection's `lastModified`. -/
def updateCharacterInGlossaryCollection (collection : GlossaryCollection)
    (characterId : Str) (updates : CharacterUpdates) (now : Nat) : GlossaryCollection :=
  let updatedSegments := collection.segments.map fun segment =>
    if segment.characters.any (fun c => c.id == characterId) then
      { segment with
        characters := segment.characters.map fun c =>
          if c.id == characterId then applyCharacterUpdates c updates now else c,
        lastModified := now }
    else segment
  { collection with segments := updatedSegments, lastModified := now }

/-! ## Glossary response parser (`parseGlossaryResponse`)

`JSON.parse` is an external builtin, and the repair heuristics are pure
regex substitution chains (`String.prototype.replace` with a regex and a
string never throws); both are modelled as abstract function parameters.
The control flow — code-fence stripping, repair, parse, validation, the
character-mapping step (which can throw a `TypeError` on `null` array
entries), and the narrower `"characters"` array fallback — is modelled
explicitly, with thrown exceptions as `Except.error`. -/

/-- JSON values, the possible results of `JSON.parse`. -/
inductive Json where
  | null
  | bool (b : Bool)
  | num (n : Int)
  | str (s : Str)
  | arr (items : List Json)
  | obj (fields : List (Str × Json))

/-- A JS property-access result: a JSON value or `undefined`. -/
inductive JsVal where
  | undefined
  | val (j : Json)

/-- `o.name`: property access.  Throws (`.error`) on `null`, yields
`undefined` on primitives and arrays, looks the field up on objects. -/
def jsGet (j : Json) (name : Str) : Except Unit JsVal :=
  match j with
  | .null => .error ()
  | .obj fields =>
    match fields.lookup name with
    | some v => .ok (.val v)
    | none => .ok .undefined
  | _ => .ok .undefined

/-- JS truthiness of a property-access result. -/
def truthy : JsVal → Bool
  | .undefined => false
  | .val .null => false
  | .val (.bool b) => b
  | .val (.num n) => !(n == 0)
  | .val (.str s) => !s.isEmpty
  | .val (.arr _) => true
  | .val (.obj _) => true

/-- `a || b` on property values. -/
def jsOr (a b : JsVal) : JsVal := if truthy a then a else b

/-- The string content of a value used in a string position (non-string
values are abstracted to the empty string; the claims do not depend on
JS string coercion of non-strings). -/
def JsVal.asStr : JsVal → Str
  | .val (.str s) => s
  | _ => []

/-- `x || undefined` for the optional fields (`age`, `gender`, ...). -/
def optField (v : JsVal) : Option Str := if truthy v then some v.asStr else none

/-- `['major','minor','background'].includes(x) ? x : 'minor'`. -/
def importanceOf (v : JsVal) : Importance :=
  match v with
  | .val (.str s) =>
    if s = "major".toList then .major
    else if s = "minor".toList then .minor
    else if s = "background".toList then .background
    else .minor
  | _ => .minor

/-- `char.occurrenceCount || 1`. -/
def occurrenceCountOf (v : JsVal) : Nat :=
  match v with
  | .val (.num n) => if n == 0 then 1 else n.toNat
  | _ => 1

/-- Decimal digits of a number, for the `Character ${index+1}` fallback
name. -/
def natDigits (n : Nat) : Str := (toString n).toList

/-- The character built by the primary strategy for array entry `e` at
index `index` (throws on a `null` entry). -/
def buildCharacter (chapterRange : ChapterRange) (now : Nat) (index : Nat) (e : Json) :
    Except Unit Character := do
  let jn ← jsGet e "japaneseName".toList
  let en ← jsGet e "englishName".toList
  let age ← jsGet e "age".toList
  let gender ← jsGet e "gender".toList
  let height ← jsGet e "height".toList
  let pa ← jsGet e "physicalAppearance".toList
  let desc ← jsGet e "description".toList
  let imp ← jsGet e "importance".toList
  let occ ← jsGet e "occurrenceCount".toList
  return { id := [],
           japaneseName := (jsOr jn (.val (.str []))).asStr,
           englishName :=
             (jsOr en (jsOr jn (.val (.str ("Character ".toList ++ natDigits (index + 1)))))).asStr,
           age := optField age,
           gender := optField gender,
           height := optField height,
           physicalAppearance := optField pa,
           description := (jsOr desc (.val (.str "No description available.".toList))).asStr,
           importance := importanceOf imp,
           firstAppearance := some chapterRange.start,
           occurrenceCount := occurrenceCountOf occ,
           lastModified := now }

/-- Map `buildCharacter` over the entries of the `characters` array. -/
def buildCharacters (chapterRange : ChapterRange) (now : Nat) :
    List Json → Nat → Except Unit (List Character)
  | [], _ => .ok []
  | e :: rest, index => do
    let c ← buildCharacter chapterRange now index e
    let cs ← buildCharacters chapterRange now rest (index + 1)
    return c :: cs

/-- The primary strategy: repaired text is parsed; a missing/non-array
`characters` property returns `null` directly (`.ok none`); a parse
throw or a mapping throw is an `.error` and falls through to the
fallback strategy. -/
def parseTier1 (jsonParse : Str → Option Json) (repairedText : Str) (seriesName : Str)
    (chapterRange : ChapterRange) (now : Nat) : Except Unit (Option Glossary) := do
  match jsonParse repairedText with
  | none => .error ()
  | some parsed => do
    let v ← jsGet parsed "characters".toList
    match v with
    | .val (.arr items) => do
      let characters ← buildCharacters chapterRange now items 0
      return some { characters := characters, seriesName := seriesName,
                    chapterRange := chapterRange,
                    lastProcessedChapter := chapterRange.stop,
                    generatedAt := now, lastModified := now }
    | _ => return none

/-- `char && (char.japaneseName || char.englishName)`: the fallback
strategy's entry filter (short-circuit: field access only on truthy,
hence non-null, entries). -/
def keepEntry (e : Json) : Bool :=
  match e with
  | .null => false
  | .bool b => b
  | .num n => decide (n ≠ 0) &&
      false -- a truthy primitive has undefined name fields, so it is dropped
  | .str s => decide (s ≠ []) && false
  | .arr _ =>
    false -- array-valued entries have undefined name fields
  | .obj fields =>
    truthy (jsOr (match fields.lookup ("japaneseName".toList) with
                  | some v => .val v | none => .undefined)
                 (match fields.lookup ("englishName".toList) with
                  | some v => .val v | none => .undefined))

def isJaChar (c : Char) : Bool :=
  let n := c.toNat
  (0x3040 ≤ n && n ≤ 0x309F) || (0x30A0 ≤ n && n ≤ 0x30FF) || (0x4E00 ≤ n && n ≤ 0x9FAF)

/-- `.replace(/\s+/g, ' ')`: collapse whitespace runs to single spaces. -/
def collapseWs : Str → Str
  | [] => []
  | c :: t =>
    if isJsWs c then ' ' :: collapseWs (t.dropWhile isJsWs)
    else c :: collapseWs t
termination_by s => s.length
decreasing_by
  · simp only [List.length_cons]
    have := (List.dropWhile_sublist (l := t) (p := isJsWs)).length_le
    omega
  · simp only [List.length_cons]
    omega

/-- The fallback strategy's description cleanup: strip Japanese script
characters, normalize spaces, trim, and substitute a placeholder when
fewer than 5 characters remain. -/
def cleanDescription (d : Str) : Str :=
  let cleaned := jsTrim (collapseWs (d.filter (fun c => !isJaChar c)))
  if cleaned.length < 5 then "Character description unavailable.".toList else cleaned

/-- The character built by the fallback strategy (after `keepEntry`). -/
def buildCharacterFb (chapterRange : ChapterRange) (now : Nat) (index : Nat) (e : Json) :
    Except Unit Character := do
  let c ← buildCharacter chapterRange now index e
  let desc ← jsGet e "description".toList
  return { c with
           description :=
             cleanDescription ((jsOr desc (.val (.str "No description available.".toList))).asStr) }

def buildCharactersFb (chapterRange : ChapterRange) (now : Nat) :
    List Json → Nat → Except Unit (List Character)
  | [], _ => .ok []
  | e :: rest, index => do
    let c ← buildCharacterFb chapterRange now index e
    let cs ← buildCharactersFb chapterRange now rest (index + 1)
    return c :: cs

/-- The fallback strategy: regex-extract the `"characters": [...]`
content from the raw response (abstracted as `charsArrayExtract`),
repair it (`repairFallback`), wrap it in a minimal object, re-parse, and
rebuild; any throw inside is caught and yields `none`. -/
def parseTier2 (jsonParse : Str → Option Json) (charsArrayExtract : Str → Option Str)
    (repairFallback : Str → Str) (response : Str) (seriesName : Str)
    (chapterRange : ChapterRange) (now : Nat) : Option Glossary :=
  match charsArrayExtract response with
  | none => none
  | some content =>
    let wrapped := "\x7b\"characters\":[".toList ++ repairFallback content ++ "]\x7d".toList
    match jsonParse wrapped with
    | none => none
    | some parsed =>
      let run : Except Unit (Option Glossary) := do
        let v ← jsGet parsed "characters".toList
        match v with
        | .val (.arr items) => do
          let characters ← buildCharactersFb chapterRange now (items.filter keepEntry) 0
          return some { characters := characters, seriesName := seriesName,
                        chapterRange := chapterRange,
                        lastProcessedChapter := chapterRange.stop,
                        generatedAt := now, lastModified := now }
        | _ => return none
      match run with
      | .error _ => none
      | .ok r => r

/-- `parseGlossaryResponse` (`services/glossaryService.ts`):
`codeFenceExtract` models the code-fence stripping, `repairMain` the
primary repair-heuristic chain, `charsArrayExtract`/`repairFallback` the
fallback strategy's regex extraction and repair.  Total: every thrown
exception is caught, and both strategies failing yields `none`. -/
def parseGlossaryResponse (jsonParse : Str → Option Json)
    (codeFenceExtract : Str → Str) (repairMain : Str → Str)
    (charsArrayExtract : Str → Option Str) (repairFallback : Str → Str)
    (response : Str) (seriesName : Str) (chapterRange : ChapterRange) (now : Nat) :
    Option Glossary :=
  match parseTier1 jsonParse (repairMain (codeFenceExtract (jsTrim response)))
      seriesName chapterRange now with
  | .ok r => r
  | .error _ =>
    parseTier2 jsonParse charsArrayExtract repairFallback response seriesName chapterRange now

/-! ## Claims -/

/-- **C10.** For every glossary collection, character id and partial
update, `updateCharacterInGlossaryCollection` returns a collection with
the same `seriesName`, the same `totalChapterRange` (and `createdAt`),
and the same segments in the same order and count (same id, series name,
chapter range, segment number, generation time and character count), in
which every character record whose id differs from the given id is
unchanged, and every character with the matching id receives exactly the
update plus a refreshed `lastModified` timestamp. -/
theorem updateCharacterInGlossaryCollection_frame (coll : GlossaryCollection)
    (cid : Str) (u : CharacterUpdates) (now : Nat) :
    (updateCharacterInGlossaryCollection coll cid u now).seriesName = coll.seriesName ∧
    (updateCharacterInGlossaryCollection coll cid u now).totalChapterRange =
      coll.totalChapterRange ∧
    (updateCharacterInGlossaryCollection coll cid u now).createdAt = coll.createdAt ∧
    (updateCharacterInGlossaryCollection coll cid u now).segments.length =
      coll.segments.length ∧
    (∀ k seg, coll.segments.get? k = some seg →
      ∃ seg', (updateCharacterInGlossaryCollection coll cid u now).segments.get? k =
          some seg' ∧
        seg'.id = seg.id ∧
        seg'.seriesName = seg.seriesName ∧
        seg'.chapterRange = seg.chapterRange ∧
        seg'.segmentNumber = seg.segmentNumber ∧
        seg'.generatedAt = seg.generatedAt ∧
        seg'.characters.length = seg.characters.length ∧
        (∀ j c, seg.characters.get? j = some c →
          (c.id ≠ cid → seg'.characters.get? j = some c) ∧
          (c.id = cid →
            seg'.characters.get? j = some (applyCharacterUpdates c u now)))) := by
  refine ⟨rfl, rfl, rfl, by simp [updateCharacterInGlossaryCollection], ?_⟩
  intro k seg hk
  have h : (updateCharacterInGlossaryCollection coll cid u now).segments.get? k =
      (coll.segments.get? k).map (fun segment =>
        if segment.characters.any (fun c => c.id == cid) then
          { segment with
            characters := segment.characters.map fun c =>
              if c.id == cid then applyCharacterUpdates c u now else c,
            lastModified := now }
        else segment) := by
    simp only [updateCharacterInGlossaryCollection]
    exact List.get?_map _ _ _
  rw [hk, Option.map_some'] at h
  by_cases hany : seg.characters.any (fun c => c.id == cid) = true
  · rw [if_pos hany] at h
    refine ⟨_, h, rfl, rfl, rfl, rfl, rfl, by simp, ?_⟩
    intro j c hj
    constructor
    · intro hne
      show (seg.characters.map fun c =>
        if c.id == cid then applyCharacterUpdates c u now else c).get? j = some c
      rw [List.get?_map, hj, Option.map_some', if_neg (by simpa using hne)]
    · intro heq
      show (seg.characters.map fun c =>
        if c.id == cid then applyCharacterUpdates c u now else c).get? j =
          some (applyCharacterUpdates c u now)
      rw [List.get?_map, hj, Option.map_some', if_pos (by simpa using heq)]
  · rw [if_neg hany] at h
    refine ⟨seg, h, rfl, rfl, rfl, rfl, rfl, rfl, ?_⟩
    intro j c hj
    have hmem : c ∈ seg.characters := List.get?_mem hj
    have hnid : ¬ c.id = cid := by
      have hall : ∀ x ∈ seg.characters, ¬ x.id = cid := by simpa using hany
      exact hall c hmem
    exact ⟨fun _ => hj, fun h => absurd h hnid⟩

/-- Concrete data for the C10 witness. -/
def c10Char (i : Str) : Character :=
  { id := i, japaneseName := "J".toList, englishName := "E".toList,
    description := "D".toList, importance := .minor, occurrenceCount := 1,
    lastModified := 0 }

def c10Seg : GlossarySegment :=
  { id := "s1".toList, characters := [c10Char "a".toList, c10Char "b".toList],
    seriesName := "S".toList, chapterRange := { start := 1, stop := 10 },
    segmentNumber := 1, generatedAt := 0, lastModified := 0 }

def c10Coll : GlossaryCollection :=
  { seriesName := "S".toList, segments := [c10Seg],
    totalChapterRange := { start := 1, stop := 10 },
    lastProcessedChapter := 10, createdAt := 0, lastModified := 0 }

def c10Upd : CharacterUpdates := { englishName := some "Elena".toList }

theorem updateCharacterInGlossaryCollection_frame_witness :
    c10Coll.segments.get? 0 = some c10Seg ∧
    (updateCharacterInGlossaryCollection c10Coll "a".toList c10Upd 5).seriesName =
      c10Coll.seriesName ∧
    ∃ seg', (updateCharacterInGlossaryCollection c10Coll "a".toList c10Upd 5).segments.get? 0 =
        some seg' ∧
      seg'.id = c10Seg.id ∧
      seg'.seriesName = c10Seg.seriesName ∧
      seg'.chapterRange = c10Seg.chapterRange ∧
      seg'.segmentNumber = c10Seg.segmentNumber ∧
      seg'.generatedAt = c10Seg.generatedAt ∧
      seg'.characters.length = c10Seg.characters.length ∧
      (∀ j c, c10Seg.characters.get? j = some c →
        (c.id ≠ "a".toList → seg'.characters.get? j = some c) ∧
        (c.id = "a".toList →
          seg'.characters.get? j = some (applyCharacterUpdates c c10Upd 5))) :=
  ⟨by decide,
   (updateCharacterInGlossaryCollection_frame c10Coll "a".toList c10Upd 5).1,
   (updateCharacterInGlossaryCollection_frame c10Coll "a".toList c10Upd 5).2.2.2.2
     0 c10Seg (by decide)⟩

/-- **C7.** `parseGlossaryResponse` is total by construction (every
thrown exception of the source is caught and modelled explicitly), and
whenever the primary repair-then-parse strategy fails (a parse/mapping
throw, or a missing `characters` array) and the narrower
characters-array fallback strategy also fails, it returns `none`, for
every input string and every behaviour of the external `JSON.parse` and
of the pure repair transforms. -/
theorem parseGlossaryResponse_both_fail_none (jsonParse : Str → Option Json)
    (codeFenceExtract repairMain : Str → Str) (charsArrayExtract : Str → Option Str)
    (repairFallback : Str → Str) (response seriesName : Str) (chapterRange : ChapterRange)
    (now : Nat)
    (h1 : parseTier1 jsonParse (repairMain (codeFenceExtract (jsTrim response)))
            seriesName chapterRange now = .error () ∨
          parseTier1 jsonParse (repairMain (codeFenceExtract (jsTrim response)))
            seriesName chapterRange now = .ok none)
    (h2 : parseTier2 jsonParse charsArrayExtract repairFallback response seriesName
            chapterRange now = none) :
    parseGlossaryResponse jsonParse codeFenceExtract repairMain charsArrayExtract
      repairFallback response seriesName chapterRange now = none := by
  unfold parseGlossaryResponse
  rcases h1 with h1 | h1 <;> rw [h1]
  exact h2

def c7Garbage : Str := "random garbage, certainly not JSON!!!".toList

theorem parseGlossaryResponse_both_fail_none_witness :
    (parseTier1 (fun _ => none) (id (id (jsTrim c7Garbage))) "S".toList
        { start := 1, stop := 10 } 0 = .error () ∨
      parseTier1 (fun _ => none) (id (id (jsTrim c7Garbage))) "S".toList
        { start := 1, stop := 10 } 0 = .ok none) ∧
    parseTier2 (fun _ => none) (fun _ => none) id c7Garbage "S".toList
      { start := 1, stop := 10 } 0 = none ∧
    parseGlossaryResponse (fun _ => none) id id (fun _ => none) id c7Garbage
      "S".toList { start := 1, stop := 10 } 0 = none :=
  ⟨Or.inl rfl, rfl,
   parseGlossaryResponse_both_fail_none (fun _ => none) id id (fun _ => none) id
     c7Garbage "S".toList { start := 1, stop := 10 } 0 (Or.inl rfl) rfl⟩

theorem strPre_append_self (p s : Str) : strPre p (p ++ s) = true :=
  (strPre_iff_exists p (p ++ s)).2 ⟨s, rfl⟩

theorem containsSub_append_right (p s : Str) : containsSub p (p ++ s) = true := by
  unfold containsSub
  cases hn : firstOcc p (p ++ s) with
  | some i => rfl
  | none =>
    exfalso
    have := (firstOcc_eq_none_iff p (p ++ s)).1 hn 0
    rw [List.drop_zero, strPre_append_self] at this
    cases this

theorem containsSub_self (p : Str) : containsSub p p = true := by
  have := containsSub_append_right p []
  simpa using this

/-- **C2.** For every chapter-translation run whose first attempt fails
with a message classified as terminal (whether the failure is a thrown
error with a non-retryable message, or — as `translateSingleChapter`
actually produces — a returned failure result), `translateChapterWithRetry`
makes exactly one attempt and immediately returns a failure carrying
that message, for every max-retries setting that allows an attempt at
all. -/
theorem translateChapterWithRetry_terminal_one_attempt (att : Nat → AttemptOut)
    (maxRetries : Nat) (msg : Str)
    (hmax : 1 ≤ maxRetries)
    (hterm : isNonRetryable msg = true)
    (hfail : att 0 = .thrownErr msg ∨
             att 0 = .result { success := false, error := some msg }) :
    ∃ e, translateChapterWithRetry att maxRetries =
        (.returned { success := false, error := some e }, 1) ∧
      containsSub msg e = true := by
  obtain ⟨m', rfl⟩ : ∃ m', maxRetries = m' + 1 := ⟨maxRetries - 1, by omega⟩
  unfold translateChapterWithRetry
  rcases hfail with h | h
  · refine ⟨msg ++ " (non-retryable error)".toList, ?_, containsSub_append_right _ _⟩
    simp only [retryGo, h, hterm, if_true]
  · refine ⟨msg, ?_, containsSub_self _⟩
    simp only [retryGo, h]

def c2Att : Nat → AttemptOut := fun _ => .thrownErr "blocked by upstream".toList

theorem translateChapterWithRetry_terminal_one_attempt_witness :
    (1 ≤ 3 ∧ isNonRetryable "blocked by upstream".toList = true ∧
      c2Att 0 = .thrownErr "blocked by upstream".toList) ∧
    ∃ e, translateChapterWithRetry c2Att 3 =
        (.returned { success := false, error := some e }, 1) ∧
      containsSub "blocked by upstream".toList e = true :=
  ⟨⟨by omega, by decide, rfl⟩,
   translateChapterWithRetry_terminal_one_attempt c2Att 3 "blocked by upstream".toList
     (by omega) (by decide) (Or.inl rfl)⟩

theorem findMarkerLast_eq_none_iff (markers : List Str) (text : Str) :
    findMarkerLast markers text = none ↔
      ∀ m ∈ markers, lastOcc (lowerStr m) (lowerStr text) = none := by
  induction markers with
  | nil => simp [findMarkerLast]
  | cons m rest ih =>
    simp only [findMarkerLast, List.mem_cons]
    cases h : lastOcc (lowerStr m) (lowerStr text) with
    | some i =>
      constructor
      · rintro ⟨⟩
      · intro hall
        rw [hall m (Or.inl rfl)] at h; cases h
    | none =>
      rw [ih]
      constructor
      · intro hall m' hm'
        rcases hm' with rfl | hm'
        · exact h
        · exact hall m' hm'
      · intro hall m' hm'
        exact hall m' (Or.inr hm')

/-- **C6 (amended).** For every raw model-output text in which no
start- or end-sentinel variant occurs, which contains neither the
chapter tag `[chapter:` nor the bare substring `chapter` (the code also
tests the latter), whose length is at most the chapter-like threshold
100, and which is not whitespace-only (that case is reported as empty
content), `translateSingleChapter` returns the markers-not-found
*failure result* — it is not thrown as an ambiguous success — and
`translateChapterWithRetry` returns that failure after exactly one
attempt, with no retry (its message contains `markers`, which the
classifier deems non-retryable, and returned failures are never
retried). -/
theorem translateSingleChapter_not_chapterlike (t : Str)
    (hstart : ∀ m ∈ START_MARKERS, firstOcc (lowerStr m) (lowerStr t) = none)
    (hend : ∀ m ∈ END_MARKERS, lastOcc (lowerStr m) (lowerStr t) = none)
    (htag : containsSub "[chapter:".toList t = false)
    (hword : containsSub "chapter".toList t = false)
    (hlen : t.length ≤ 100)
    (htrim : (jsTrim t).isEmpty = false) :
    translateSingleChapter (.text t) =
      .result { success := false, error := some noMarkersMsg, fullResponse := some t } ∧
    (∀ (att : Nat → AttemptOut) (maxRetries : Nat), 1 ≤ maxRetries →
      att 0 = translateSingleChapter (.text t) →
      translateChapterWithRetry att maxRetries =
        (.returned { success := false, error := some noMarkersMsg,
                     fullResponse := some t }, 1)) := by
  have hfs : findMarkerFirst START_MARKERS t = none :=
    (findMarkerFirst_eq_none_iff _ _).2 hstart
  have hfe : findMarkerLast END_MARKERS t = none :=
    (findMarkerLast_eq_none_iff _ _).2 hend
  have hex : extractTranslationText t = none := by
    unfold extractTranslationText
    rw [hfs, hfe]
  have hlen' : decide (t.length > 100) = false := by
    simp only [decide_eq_false_iff_not]
    omega
  have hmain : translateSingleChapter (.text t) =
      .result { success := false, error := some noMarkersMsg, fullResponse := some t } := by
    simp [translateSingleChapter, htrim, hex, htag, hword, hlen']
    exact ⟨by simpa using htag, by simpa using hword⟩
  refine ⟨hmain, ?_⟩
  intro att maxRetries hmr hatt
  obtain ⟨m', rfl⟩ : ∃ m', maxRetries = m' + 1 := ⟨maxRetries - 1, by omega⟩
  unfold translateChapterWithRetry
  simp only [retryGo, hatt, hmain]

def c6AmendedText : Str := "zzz".toList

theorem translateSingleChapter_not_chapterlike_witness :
    ((∀ m ∈ START_MARKERS, firstOcc (lowerStr m) (lowerStr c6AmendedText) = none) ∧
     (∀ m ∈ END_MARKERS, lastOcc (lowerStr m) (lowerStr c6AmendedText) = none) ∧
     containsSub "[chapter:".toList c6AmendedText = false ∧
     containsSub "chapter".toList c6AmendedText = false ∧
     c6AmendedText.length ≤ 100 ∧
     (jsTrim c6AmendedText).isEmpty = false) ∧
    translateSingleChapter (.text c6AmendedText) =
      .result { success := false, error := some noMarkersMsg,
                fullResponse := some c6AmendedText } ∧
    translateChapterWithRetry
        (fun _ => translateSingleChapter (.text c6AmendedText)) 3 =
      (.returned { success := false, error := some noMarkersMsg,
                   fullResponse := some c6AmendedText }, 1) :=
  ⟨⟨by decide, by decide, by decide, by decide, by decide, by decide⟩,
   (translateSingleChapter_not_chapterlike c6AmendedText (by decide) (by decide)
     (by decide) (by decide) (by decide) (by decide)).1,
   (translateSingleChapter_not_chapterlike c6AmendedText (by decide) (by decide)
     (by decide) (by decide) (by decide) (by decide)).2
     (fun _ => translateSingleChapter (.text c6AmendedText)) 3 (by omega) rfl⟩

def c6Text : Str := "chapter".toList

/-- **C6 counterexample.** The raw text `"chapter"` contains no sentinel
variant, does not contain the chapter-number tag pattern `[chapter:`,
and is far below the length threshold, yet the chapter-translation
outcome is a thrown `TranslationWithoutMarkersError` (the
ambiguous-success channel surfaced to the caller), not a retriable
failure result — because the code also treats any occurrence of the bare
substring `chapter` as chapter-like. -/
theorem c6_counterexample :
    (∀ m ∈ START_MARKERS, firstOcc (lowerStr m) (lowerStr c6Text) = none) ∧
    (∀ m ∈ END_MARKERS, lastOcc (lowerStr m) (lowerStr c6Text) = none) ∧
    containsSub "[chapter:".toList c6Text = false ∧
    c6Text.length ≤ 100 ∧
    translateSingleChapter (.text c6Text) = .thrownWithoutMarkers c6Text ∧
    (∀ r, translateSingleChapter (.text c6Text) ≠ .result r) := by
  refine ⟨by decide, by decide, by decide, by decide, by decide, ?_⟩
  intro r h
  rw [(by decide : translateSingleChapter (.text c6Text) = .thrownWithoutMarkers c6Text)]
    at h
  cases h

/-- Written from the claim text of C1 (refinement comparison): the
position of "the first occurrence of any start-sentinel variant,
case-insensitively" — the minimum over all variants of their first
occurrence index. -/
def claimFirstAnyOcc (markers : List Str) (t : Str) : Option Nat :=
  (markers.filterMap (fun m => firstOcc (lowerStr m) (lowerStr t))).foldr
    (fun i acc =>
      match acc with
      | none => some i
      | some j => some (min i j)) none

/-- Written from the claim text of C1 (refinement comparison): the
position of "the last occurrence of any end-sentinel variant,
case-insensitively" — the maximum over all variants of their last
occurrence index. -/
def claimLastAnyOcc (markers : List Str) (t : Str) : Option Nat :=
  (markers.filterMap (fun m => lastOcc (lowerStr m) (lowerStr t))).foldr
    (fun i acc =>
      match acc with
      | none => some i
      | some j => some (max i j)) none

def c1Text : Str :=
  "\x7b\x7bstart\x7d\x7dA***TRANSLATION_START***B***TRANSLATION_END***".toList

/-- **C1 counterexample.** On `"{{start}}A***TRANSLATION_START***B***TRANSLATION_END***"`
the first occurrence of any start variant is the `{{start}}` (length 9)
at position 0, the last occurrence of any end variant is at position 34,
and 0 < 34, so the claim asserts success with the trimmed substring
strictly between them, `"A***TRANSLATION_START***B"`.  The code instead
walks the variant list in priority order, settles on
`***TRANSLATION_START***` (the first *variant* that occurs anywhere,
even though it occurs later in the text), and returns `"B"`. -/
theorem c1_counterexample :
    claimFirstAnyOcc START_MARKERS c1Text = some 0 ∧
    strPre (lowerStr "\x7b\x7bstart\x7d\x7d".toList) (lowerStr c1Text) = true ∧
    ("\x7b\x7bstart\x7d\x7d".toList : Str).length = 9 ∧
    claimLastAnyOcc END_MARKERS c1Text = some 34 ∧
    jsTrim (jsSubstring c1Text 9 34) = "A***TRANSLATION_START***B".toList ∧
    extractTranslationText c1Text = some "B".toList ∧
    ("B".toList : Str) ≠ "A***TRANSLATION_START***B".toList := by
  refine ⟨by decide, by decide, by decide, by decide, by decide, by decide, by decide⟩

/-- **C1 (amended).** The code locates the start sentinel by walking the
variant list in its declared priority order and taking the first
(case-insensitive) occurrence of the first variant that occurs at all,
and the end sentinel symmetrically with the last occurrence; whenever
the located start marker ends at or before the located end marker and
the substring strictly between them is not whitespace-only,
`extractTranslationText` returns success with exactly that trimmed
substring, wherever the two occurrences sit inside the text. -/
theorem extractTranslationText_both_markers (t : Str) (k l : Nat) (sm em : Str)
    (si ei : Nat)
    (hks : START_MARKERS.get? k = some sm)
    (hprevs : ∀ k' m', k' < k → START_MARKERS.get? k' = some m' →
      firstOcc (lowerStr m') (lowerStr t) = none)
    (hsi : firstOcc (lowerStr sm) (lowerStr t) = some si)
    (hke : END_MARKERS.get? l = some em)
    (hpreve : ∀ l' m', l' < l → END_MARKERS.get? l' = some m' →
      lastOcc (lowerStr m') (lowerStr t) = none)
    (hei : lastOcc (lowerStr em) (lowerStr t) = some ei)
    (hpos : 0 < sm.length)
    (horder : si + sm.length ≤ ei)
    (hne : (jsTrim (jsSubstring t (si + sm.length) ei)).isEmpty = false) :
    extractTranslationText t = some (jsTrim (jsSubstring t (si + sm.length) ei)) := by
  have hfs : findMarkerFirst START_MARKERS t = some (si, sm.length) :=
    findMarkerFirst_eq_of START_MARKERS t k sm si hks hprevs hsi
  have hfe : findMarkerLast END_MARKERS t = some (ei, em.length) :=
    findMarkerLast_eq_of END_MARKERS t l em ei hke hpreve hei
  unfold extractTranslationText
  rw [hfs, hfe]
  simp only [if_pos (by omega : si < ei), hne, Bool.false_eq_true, if_false]

def c1WitText : Str := "xx***TRANSLATION_START*** Hello ***TRANSLATION_END***yy".toList

theorem extractTranslationText_both_markers_witness :
    (START_MARKERS.get? 0 = some "***TRANSLATION_START***".toList ∧
     firstOcc (lowerStr "***TRANSLATION_START***".toList) (lowerStr c1WitText) = some 2 ∧
     END_MARKERS.get? 0 = some "***TRANSLATION_END***".toList ∧
     lastOcc (lowerStr "***TRANSLATION_END***".toList) (lowerStr c1WitText) = some 32 ∧
     jsTrim (jsSubstring c1WitText (2 + 23) 32) = "Hello".toList) ∧
    extractTranslationText c1WitText =
      some (jsTrim (jsSubstring c1WitText
        (2 + ("***TRANSLATION_START***".toList : Str).length) 32)) :=
  ⟨⟨by decide, by decide, by decide, by decide, by decide⟩,
   extractTranslationText_both_markers c1WitText 0 0
     "***TRANSLATION_START***".toList "***TRANSLATION_END***".toList 2 32
     (by decide)
     (fun k' m' hk' _ => absurd hk' (Nat.not_lt_zero k'))
     (by decide)
     (by decide)
     (fun l' m' hl' _ => absurd hl' (Nat.not_lt_zero l'))
     (by decide)
     (by decide)
     (by decide)
     (by decide)⟩

theorem isJsDigit_not_ws (c : Char) (h : isJsDigit c = true) : isJsWs c = false := by
  have hn : 48 ≤ c.toNat ∧ c.toNat ≤ 57 := by simpa [isJsDigit] using h
  simp only [isJsWs, Bool.or_eq_false_iff, Bool.and_eq_false_iff,
    beq_eq_false_iff_ne, ne_eq, decide_eq_false_iff_not, not_le]
  omega

theorem tagTailCheck_digit (r : Str) (h : tagTailCheck r = true) :
    ∃ c ∈ r, isJsDigit c = true := by
  unfold tagTailCheck at h
  rw [Bool.and_eq_true] at h
  obtain ⟨h1, -⟩ := h
  rw [Bool.not_eq_true'] at h1
  cases hrw : r.dropWhile isJsWs with
  | nil => rw [hrw] at h1; simp at h1
  | cons c rest =>
    rw [hrw] at h1
    by_cases hd : isJsDigit c = true
    · have hcr : c ∈ r := by
        have hsub : List.Sublist (r.dropWhile isJsWs) r := List.dropWhile_sublist _
        exact hsub.subset (by rw [hrw]; exact List.mem_cons_self c rest)
      exact ⟨c, hcr, hd⟩
    · rw [List.takeWhile_cons, if_neg hd] at h1
      simp at h1

theorem tagMatch_digit (s : Str) (h : tagMatch s = true) : ∃ c ∈ s, isJsDigit c = true := by
  unfold tagMatch at h
  rw [Bool.and_eq_true] at h
  obtain ⟨c, hc, hd⟩ := tagTailCheck_digit _ h.2
  exact ⟨c, (List.drop_sublist 9 s).subset hc, hd⟩

theorem tailTitleMatch_digit (r : Str) (h : tailTitleMatch r = true) :
    ∃ c ∈ r, isJsDigit c = true := by
  unfold tailTitleMatch at h
  rw [List.any_eq_true] at h
  obtain ⟨q, -, hq⟩ := h
  rw [Bool.and_eq_true] at hq
  obtain ⟨c, hc, hd⟩ := tagMatch_digit _ hq.2
  exact ⟨c, (List.drop_sublist q r).subset hc, hd⟩

theorem titleStartsAt_digit (t : Str) (p : Nat) (h : titleStartsAt t p = true) :
    ∃ c ∈ t.drop p, isJsDigit c = true := by
  unfold titleStartsAt at h
  rw [Bool.or_eq_true] at h
  rcases h with h | h
  · rw [Bool.and_eq_true] at h
    have hp : p = 0 := by simpa using h.1
    subst hp
    simpa using tailTitleMatch_digit t h.2
  · rw [Bool.and_eq_true] at h
    obtain ⟨c, hc, hd⟩ := tailTitleMatch_digit _ h.2
    exact ⟨c, (List.drop_sublist 1 (t.drop p)).subset hc, hd⟩

theorem jsTrim_not_empty (s : Str) (c : Char) (hc : c ∈ s) (hw : isJsWs c = false) :
    (jsTrim s).isEmpty = false := by
  rw [Bool.eq_false_iff]
  intro hemp
  have hnil : jsTrim s = [] := by simpa using hemp
  unfold jsTrim at hnil
  rw [List.reverse_eq_nil_iff] at hnil
  have hall2 : ∀ x ∈ (s.dropWhile isJsWs).reverse, isJsWs x = true := by
    simpa using hnil
  have halld : ∀ x ∈ s.dropWhile isJsWs, isJsWs x = true := by
    intro x hx
    exact hall2 x (List.mem_reverse.2 hx)
  have hsplit : s.takeWhile isJsWs ++ s.dropWhile isJsWs = s :=
    List.takeWhile_append_dropWhile isJsWs s
  have hcs : c ∈ s.takeWhile isJsWs ++ s.dropWhile isJsWs := by rw [hsplit]; exact hc
  rcases List.mem_append.1 hcs with hmem | hmem
  · rw [List.mem_takeWhile_imp hmem] at hw; cases hw
  · rw [halld c hmem] at hw; cases hw

/-- **C5.** For every raw model-output text in which no start-sentinel
variant occurs but the end-marker search locates an end sentinel, if the
text preceding the end sentinel contains the chapter-title-line pattern
(free text followed by a bracketed chapter-number tag, located at the
regex's leftmost match index), `extractTranslationText` returns success
with the (trimmed) substring from the title line up to the end
sentinel. -/
theorem extractTranslationText_recovery (t : Str) (ei el m : Nat)
    (hstart : ∀ ms ∈ START_MARKERS, firstOcc (lowerStr ms) (lowerStr t) = none)
    (hend : findMarkerLast END_MARKERS t = some (ei, el))
    (htitle : titleMatchIdx (jsSubstring t 0 ei) = some m) :
    extractTranslationText t = some (jsTrim ((jsSubstring t 0 ei).drop m)) := by
  have hfs : findMarkerFirst START_MARKERS t = none :=
    (findMarkerFirst_eq_none_iff _ _).2 hstart
  have hstarts : titleStartsAt (jsSubstring t 0 ei) m = true := List.find?_some htitle
  obtain ⟨c, hcmem, hcdig⟩ := titleStartsAt_digit _ _ hstarts
  have hne : (jsTrim ((jsSubstring t 0 ei).drop m)).isEmpty = false :=
    jsTrim_not_empty _ c hcmem (isJsDigit_not_ws c hcdig)
  simp only [extractTranslationText, hfs, hend, htitle, hne, Bool.false_eq_true, if_false]

def c5Text : Str := "T [chapter: 1]\n***TRANSLATION_END***".toList

theorem extractTranslationText_recovery_witness :
    ((∀ ms ∈ START_MARKERS, firstOcc (lowerStr ms) (lowerStr c5Text) = none) ∧
     findMarkerLast END_MARKERS c5Text = some (15, 21) ∧
     titleMatchIdx (jsSubstring c5Text 0 15) = some 0 ∧
     jsTrim ((jsSubstring c5Text 0 15).drop 0) = "T [chapter: 1]".toList) ∧
    extractTranslationText c5Text = some (jsTrim ((jsSubstring c5Text 0 15).drop 0)) :=
  ⟨⟨by decide, by decide, by decide, by decide⟩,
   extractTranslationText_recovery c5Text 15 21 0 (by decide) (by decide) (by decide)⟩

theorem translateLoop_halts_aux (call call' : Nat → ChapterCallOut) (start k : Nat)
    (msg : Str)
    (hfail : call (start + k) = .err msg)
    (hagree : ∀ j, j ≤ k → call' (start + j) = call (start + j)) :
    ∀ (fuel i : Nat) (cur : List Chapter), i ≤ k → k < i + fuel →
      cur.any (fun c => c.chapterNumber == start + k) = false →
      (∀ j, i ≤ j → j < k →
        cur.any (fun c => c.chapterNumber == start + j) = true ∨
        ∃ t, call (start + j) = .ok t) →
      ∃ done,
        translateLoop call start fuel i cur = .haltedAt (start + k) done done.length ∧
        translateLoop call' start fuel i cur = .haltedAt (start + k) done done.length ∧
        List.IsPrefix cur done ∧
        (∀ c ∈ done, c ∈ cur ∨
          ∃ j t, i ≤ j ∧ j < k ∧ call (start + j) = .ok t ∧
            c = { chapterNumber := start + j, translatedText := t }) := by
  intro fuel
  induction fuel with
  | zero => intro i cur hik hbound _ _; omega
  | succ fuel ih =>
    intro i cur hik hbound hnp hpre
    by_cases hik2 : i = k
    · subst hik2
      refine ⟨cur, ?_, ?_, List.prefix_refl _, fun c hc => Or.inl hc⟩
      · simp only [translateLoop]
        rw [if_neg (by simp [hnp])]
        rw [hfail]
      · simp only [translateLoop]
        rw [if_neg (by simp [hnp])]
        rw [hagree i (Nat.le_refl i), hfail]
    · have hiklt : i < k := by omega
      by_cases hskip : cur.any (fun c => c.chapterNumber == start + i) = true
      · obtain ⟨done, h1, h2, hpref, hmem⟩ := ih (i + 1) cur (by omega) (by omega) hnp
          (fun j hj1 hj2 => hpre j (by omega) hj2)
        refine ⟨done, ?_, ?_, hpref, ?_⟩
        · simp only [translateLoop]
          rw [if_pos hskip]
          exact h1
        · simp only [translateLoop]
          rw [if_pos hskip]
          exact h2
        · intro c hc
          rcases hmem c hc with h | ⟨j, t, hj1, hj2, hcall, hceq⟩
          · exact Or.inl h
          · exact Or.inr ⟨j, t, by omega, hj2, hcall, hceq⟩
      · rcases hpre i (Nat.le_refl i) hiklt with hall | ⟨t, hcall⟩
        · exact absurd hall hskip
        · have hnp' : (cur ++ [({ chapterNumber := start + i, translatedText := t } : Chapter)]).any
              (fun c => c.chapterNumber == start + k) = false := by
            have hne : start + i ≠ start + k := by omega
            simp [List.any_append, hnp, hne]
          have hpre' : ∀ j, i + 1 ≤ j → j < k →
              (cur ++ [({ chapterNumber := start + i, translatedText := t } : Chapter)]).any
                (fun c => c.chapterNumber == start + j) = true ∨
              ∃ t', call (start + j) = .ok t' := by
            intro j hj1 hj2
            rcases hpre j (by omega) hj2 with hany | hok
            · left; simp [List.any_append, hany]
            · right; exact hok
          obtain ⟨done, h1, h2, hpref, hmem⟩ := ih (i + 1)
            (cur ++ [({ chapterNumber := start + i, translatedText := t } : Chapter)])
            (by omega) (by omega) hnp' hpre'
          have hcall' : call' (start + i) = .ok t := by
            rw [hagree i (by omega), hcall]
          refine ⟨done, ?_, ?_, ?_, ?_⟩
          · simp only [translateLoop]
            rw [if_neg hskip, hcall]
            exact h1
          · simp only [translateLoop]
            rw [if_neg hskip, hcall']
            exact h2
          · exact (List.prefix_append cur _).trans hpref
          · intro c hc
            rcases hmem c hc with hcur' | ⟨j, t', hj1, hj2, hc2, hceq⟩
            · rcases List.mem_append.1 hcur' with h | h
              · exact Or.inl h
              · have hc3 : c = { chapterNumber := start + i, translatedText := t } := by
                  simpa using h
                exact Or.inr ⟨i, t, Nat.le_refl i, hiklt, hcall, hc3⟩
            · exact Or.inr ⟨j, t', by omega, hj2, hc2, hceq⟩

/-- **C8.** For every multi-chapter translation run in which every
chapter before chapter `startChapter + k` is skipped or succeeds and
chapter `startChapter + k` fails with a thrown error, `handleTranslate`
halts at exactly that chapter: the result reports the failing chapter
number and the completed count, keeps all previously translated chapters
(as a prefix) plus exactly the chapters completed before the failure,
and is unaffected by the behaviour of the completion call on any later
chapter (no later chapter is attempted). -/
theorem handleTranslate_halts (call call' : Nat → ChapterCallOut)
    (existing : List Chapter) (startChapter numChapters k : Nat) (msg : Str)
    (hk : k < numChapters)
    (hfail : call (startChapter + k) = .err msg)
    (hagree : ∀ j, j ≤ k → call' (startChapter + j) = call (startChapter + j))
    (hnp : existing.any (fun c => c.chapterNumber == startChapter + k) = false)
    (hpre : ∀ j, j < k →
      existing.any (fun c => c.chapterNumber == startChapter + j) = true ∨
      ∃ t, call (startChapter + j) = .ok t) :
    ∃ done,
      handleTranslate existing startChapter numChapters call =
        .haltedAt (startChapter + k) done done.length ∧
      handleTranslate existing startChapter numChapters call' =
        .haltedAt (startChapter + k) done done.length ∧
      List.IsPrefix existing done ∧
      (∀ c ∈ done, c ∈ existing ∨
        ∃ j t, j < k ∧ call (startChapter + j) = .ok t ∧
          c = { chapterNumber := startChapter + j, translatedText := t }) := by
  obtain ⟨done, h1, h2, h3, h4⟩ :=
    translateLoop_halts_aux call call' startChapter k msg hfail hagree numChapters 0
      existing (by omega) (by omega) hnp (fun j _ hj2 => hpre j hj2)
  refine ⟨done, h1, h2, h3, ?_⟩
  intro c hc
  rcases h4 c hc with h | ⟨j, t, _, hj2, hcall, hceq⟩
  · exact Or.inl h
  · exact Or.inr ⟨j, t, hj2, hcall, hceq⟩

def c8BlockedMsg : Str := "Access denied or blocked for chapter (blocked)".toList

/-- The completion-call oracle of the spec's end-to-end scenario:
chapters 1 and 3 would succeed, chapter 2 throws a blocked-style
error. -/
def c8Call : Nat → ChapterCallOut := fun n =>
  if n == 2 then .err c8BlockedMsg else .ok "one".toList

theorem handleTranslate_halts_witness :
    (c8Call (1 + 1) = .err c8BlockedMsg ∧ (1 : Nat) < 3 ∧
      ([] : List Chapter).any (fun c => c.chapterNumber == 1 + 1) = false) ∧
    (∃ done,
      handleTranslate [] 1 3 c8Call = .haltedAt (1 + 1) done done.length ∧
      handleTranslate [] 1 3 c8Call = .haltedAt (1 + 1) done done.length ∧
      List.IsPrefix [] done ∧
      (∀ c ∈ done, c ∈ ([] : List Chapter) ∨
        ∃ j t, j < 1 ∧ c8Call (1 + j) = .ok t ∧
          c = { chapterNumber := 1 + j, translatedText := t })) ∧
    handleTranslate [] 1 3 c8Call =
      .haltedAt 2 [{ chapterNumber := 1, translatedText := "one".toList }] 1 :=
  ⟨⟨by decide, by omega, by decide⟩,
   handleTranslate_halts c8Call c8Call [] 1 3 1 c8BlockedMsg (by omega) (by decide)
     (fun j _ => rfl) (by decide)
     (fun j hj =>
       match j, hj with
       | 0, _ => Or.inr ⟨"one".toList, by decide⟩
       | j + 1, hj => absurd hj (by omega)),
   by decide⟩

theorem translateLoop_unique (call : Nat → ChapterCallOut) (start : Nat) :
    ∀ (fuel i : Nat) (cur : List Chapter), uniqueChapters cur →
      uniqueChapters (translateLoop call start fuel i cur).chapters := by
  intro fuel
  induction fuel with
  | zero =>
    intro i cur h
    simpa only [translateLoop, TranslateRunResult.chapters] using h
  | succ fuel ih =>
    intro i cur h
    simp only [translateLoop]
    by_cases hskip : cur.any (fun c => c.chapterNumber == start + i) = true
    · rw [if_pos hskip]
      exact ih (i + 1) cur h
    · rw [if_neg hskip]
      cases hcall : call (start + i) with
      | ok t =>
        apply ih
        have hnotin : (start + i) ∉ chapterNumbers cur := by
          intro hmem
          apply hskip
          rw [List.any_eq_true]
          obtain ⟨c, hc, hcn⟩ := List.mem_map.1 hmem
          exact ⟨c, hc, by simp [hcn]⟩
        unfold uniqueChapters chapterNumbers at h ⊢
        rw [List.map_append]
        rw [List.nodup_append]
        refine ⟨h, List.nodup_singleton _, ?_⟩
        intro a ha hb
        have : a = start + i := by simpa using hb
        subst this
        exact hnotin ha
      | err m =>
        simpa only [TranslateRunResult.chapters] using h

/-- **C9 (amended).** Starting from a translated-chapter collection with
unique chapter numbers, the translation loop, the edit operation and the
delete operation always preserve uniqueness; the manual fallback entry
(English or Japanese mode) appends without any duplicate check, so it
preserves uniqueness exactly under the precondition that the fallback
chapter number is not already present (which the UI flow establishes,
since the fallback is only offered for a chapter that failed and a
chapter already present is skipped rather than attempted). -/
theorem chapterOps_unique (cs : List Chapter) (h : uniqueChapters cs) :
    (∀ n txt, uniqueChapters (editChapter cs n txt)) ∧
    (∀ n, uniqueChapters (deleteChapter cs n)) ∧
    (∀ start numCh call,
      uniqueChapters (handleTranslate cs start numCh call).chapters) ∧
    (∀ n ftype ftext api, n ∉ chapterNumbers cs →
      uniqueChapters (handleFallbackSubmit cs n ftype ftext api)) := by
  refine ⟨?_, ?_, ?_, ?_⟩
  · intro n txt
    have hnum : chapterNumbers (editChapter cs n txt) = chapterNumbers cs := by
      unfold chapterNumbers editChapter
      rw [List.map_map]
      apply List.map_congr_left
      intro c _
      simp only [Function.comp_apply]
      split <;> rfl
    unfold uniqueChapters at h ⊢
    rw [hnum]
    exact h
  · intro n
    unfold uniqueChapters chapterNumbers at h ⊢
    exact ((List.filter_sublist cs).map _).nodup h
  · intro start numCh call
    exact translateLoop_unique call start numCh 0 cs h
  · intro n ftype ftext api hn
    have happend : ∀ txt : Str,
        uniqueChapters (cs ++ [{ chapterNumber := n, translatedText := txt }]) := by
      intro txt
      unfold uniqueChapters chapterNumbers at h ⊢
      rw [List.map_append, List.nodup_append]
      refine ⟨h, List.nodup_singleton _, ?_⟩
      intro a ha hb
      have : a = n := by simpa using hb
      subst this
      exact hn ha
    unfold handleFallbackSubmit
    by_cases htrim : (jsTrim ftext).isEmpty = true
    · rw [if_pos htrim]; exact h
    · rw [if_neg htrim]
      cases ftype with
      | english => exact happend _
      | japanese =>
        cases api with
        | err m => exact h
        | text fullText => exact happend _

def c9Chapters : List Chapter := [{ chapterNumber := 1, translatedText := "a".toList }]

/-- **C9 counterexample.** The manual fallback entry (English mode)
appends a record without checking for an existing chapter with the same
number: submitting fallback text for chapter 1 when chapter 1 is already
in the collection yields two records with `chapterNumber = 1`, violating
the claimed invariant. -/
theorem c9_counterexample :
    uniqueChapters c9Chapters ∧
    ¬ uniqueChapters (handleFallbackSubmit c9Chapters 1 .english "b".toList (.err [])) ∧
    handleFallbackSubmit c9Chapters 1 .english "b".toList (.err []) =
      [{ chapterNumber := 1, translatedText := "a".toList },
       { chapterNumber := 1, translatedText := "b".toList }] :=
  ⟨by decide, by decide, by decide⟩

def c9WitChapters : List Chapter :=
  [{ chapterNumber := 1, translatedText := "a".toList },
   { chapterNumber := 2, translatedText := "c".toList }]

theorem chapterOps_unique_witness :
    uniqueChapters c9WitChapters ∧
    (3 : Nat) ∉ chapterNumbers c9WitChapters ∧
    uniqueChapters (editChapter c9WitChapters 1 "x".toList) ∧
    uniqueChapters (deleteChapter c9WitChapters 1) ∧
    uniqueChapters (handleTranslate c9WitChapters 1 3 (fun _ => .ok "t".toList)).chapters ∧
    uniqueChapters (handleFallbackSubmit c9WitChapters 3 .english "b".toList (.err [])) :=
  ⟨by decide, by decide,
   (chapterOps_unique c9WitChapters (by decide)).1 1 "x".toList,
   (chapterOps_unique c9WitChapters (by decide)).2.1 1,
   (chapterOps_unique c9WitChapters (by decide)).2.2.1 1 3 (fun _ => .ok "t".toList),
   (chapterOps_unique c9WitChapters (by decide)).2.2.2 3 .english "b".toList (.err [])
     (by decide)⟩

/-- The segment record the loop appends for attempt `i`, `none` when the
attempt is skipped or aborts. -/
def segResultOf (oracle : Nat → SegAttemptOut) (seriesName : Str)
    (rangeStart totalChapters now : Nat) (i : Nat) : Option GlossarySegment :=
  match oracle i with
  | .parsedChars cs => some (mkSegment seriesName rangeStart totalChapters now i cs)
  | _ => none

/-- The segments built by the `len` attempts starting at index `idx`. -/
def builtSpan (oracle : Nat → SegAttemptOut) (seriesName : Str)
    (rangeStart totalChapters now : Nat) (idx len : Nat) : List GlossarySegment :=
  (List.range' idx len).filterMap (segResultOf oracle seriesName rangeStart totalChapters now)

theorem builtSpan_succ (oracle : Nat → SegAttemptOut) (seriesName : Str)
    (rangeStart totalChapters now idx len : Nat) :
    builtSpan oracle seriesName rangeStart totalChapters now idx (len + 1) =
      (segResultOf oracle seriesName rangeStart totalChapters now idx).toList ++
      builtSpan oracle seriesName rangeStart totalChapters now (idx + 1) len := by
  unfold builtSpan
  rw [List.range'_succ]
  cases h : segResultOf oracle seriesName rangeStart totalChapters now idx with
  | none => simp [List.filterMap_cons, h]
  | some m => simp [List.filterMap_cons, h]

theorem filterMap_length_eq_countP {α β : Type _} (f : α → Option β) (l : List α) :
    (l.filterMap f).length = l.countP (fun a => (f a).isSome) := by
  induction l with
  | nil => simp
  | cons a l ih =>
    cases h : f a with
    | none => simp [List.filterMap_cons, h, List.countP_cons, ih]
    | some b => simp [List.filterMap_cons, h, List.countP_cons, ih]

/-- Full characterization of the segment loop on an abort-free span of
attempts: the built segments are `builtSpan`, the recorded context
payloads are, for each attempt `n`, the payload of the segments built by
the attempts before `n`, and no abort is reported. -/
theorem segLoop_run (oracle : Nat → SegAttemptOut) (seriesName : Str)
    (rangeStart totalChapters now : Nat) :
    ∀ (fuel idx : Nat) (segs : List GlossarySegment)
      (tr : List (Option (List ContextCharacter))),
      (∀ j, idx ≤ j → j < idx + fuel → ∀ msg, oracle j ≠ .requestAbort msg) →
      segLoop oracle seriesName rangeStart totalChapters now fuel idx segs tr =
        (segs ++ builtSpan oracle seriesName rangeStart totalChapters now idx fuel,
         tr ++ (List.range' idx fuel).map (fun n => segmentContextPayload
           (segs ++ builtSpan oracle seriesName rangeStart totalChapters now idx (n - idx))),
         none) := by
  intro fuel
  induction fuel with
  | zero =>
    intro idx segs tr _
    simp [segLoop, builtSpan]
  | succ fuel ih =>
    intro idx segs tr hab
    have htail : ∀ (segs' : List GlossarySegment),
        segs' = segs ++ (segResultOf oracle seriesName rangeStart totalChapters now idx).toList →
        (List.range' (idx + 1) fuel).map (fun n => segmentContextPayload
          (segs' ++ builtSpan oracle seriesName rangeStart totalChapters now (idx + 1)
            (n - (idx + 1)))) =
        (List.range' (idx + 1) fuel).map (fun n => segmentContextPayload
          (segs ++ builtSpan oracle seriesName rangeStart totalChapters now idx (n - idx))) := by
      intro segs' hsegs'
      apply List.map_congr_left
      intro n hn
      have hge : idx + 1 ≤ n := by
        rw [List.mem_range'_1] at hn
        omega
      have hspan : builtSpan oracle seriesName rangeStart totalChapters now idx (n - idx) =
          (segResultOf oracle seriesName rangeStart totalChapters now idx).toList ++
          builtSpan oracle seriesName rangeStart totalChapters now (idx + 1) (n - (idx + 1)) := by
        have : n - idx = (n - (idx + 1)) + 1 := by omega
        rw [this, builtSpan_succ]
      rw [hspan, hsegs', List.append_assoc]
    have hab' : ∀ j, idx + 1 ≤ j → j < (idx + 1) + fuel → ∀ msg,
        oracle j ≠ .requestAbort msg := fun j h1 h2 => hab j (by omega) (by omega)
    simp only [segLoop]
    cases horacle : oracle idx with
    | requestAbort msg =>
      exact absurd horacle (hab idx (Nat.le_refl _) (by omega) msg)
    | emptyResponse =>
      refine Eq.trans (ih (idx + 1) segs (tr ++ [segmentContextPayload segs]) hab') ?_
      have hres : segResultOf oracle seriesName rangeStart totalChapters now idx = none := by
        simp [segResultOf, horacle]
      have h0 : builtSpan oracle seriesName rangeStart totalChapters now idx 0 = [] := by
        simp [builtSpan]
      rw [List.range'_succ, List.map_cons, builtSpan_succ, hres,
        htail segs (by simp [hres])]
      simp [h0]
    | parseFailure =>
      refine Eq.trans (ih (idx + 1) segs (tr ++ [segmentContextPayload segs]) hab') ?_
      have hres : segResultOf oracle seriesName rangeStart totalChapters now idx = none := by
        simp [segResultOf, horacle]
      have h0 : builtSpan oracle seriesName rangeStart totalChapters now idx 0 = [] := by
        simp [builtSpan]
      rw [List.range'_succ, List.map_cons, builtSpan_succ, hres,
        htail segs (by simp [hres])]
      simp [h0]
    | parsedChars cs =>
      refine Eq.trans (ih (idx + 1)
        (segs ++ [mkSegment seriesName rangeStart totalChapters now idx cs])
        (tr ++ [segmentContextPayload segs]) hab') ?_
      have hres : segResultOf oracle seriesName rangeStart totalChapters now idx =
          some (mkSegment seriesName rangeStart totalChapters now idx cs) := by
        simp [segResultOf, horacle]
      have h0 : builtSpan oracle seriesName rangeStart totalChapters now idx 0 = [] := by
        simp [builtSpan]
      rw [List.range'_succ, List.map_cons, builtSpan_succ, hres,
        htail (segs ++ [mkSegment seriesName rangeStart totalChapters now idx cs])
          (by simp [hres])]
      simp [h0]

/-- **C4 (amended).** In every glossary run in which no segment attempt
aborts the loop (no thrown non-rate-limit error and no rate-limit
exhaustion — those propagate to the outer `catch` and fail the whole
run), `generateGlossarySegments` declares success iff at least one
segment was parsed, and the returned collection records one segment per
successful attempt with
`lastProcessedChapter = chapterRange.start + 10·(successful segments) − 1`
— a value derived from the *count* of successful segments, which can
differ from the last chapter actually covered. -/
theorem generateGlossarySegments_success_iff (seriesName : Str) (chapterUrls : List Str)
    (rangeStart rangeStop now : Nat) (oracle : Nat → SegAttemptOut)
    (hab : ∀ j, j < (chapterUrls.length + 9) / 10 → ∀ msg,
      oracle j ≠ .requestAbort msg) :
    ((generateGlossarySegments seriesName chapterUrls rangeStart rangeStop now
        oracle).success = true ↔
      0 < (List.range ((chapterUrls.length + 9) / 10)).countP
        (fun i => (oracle i).isParsed)) ∧
    (∀ c, (generateGlossarySegments seriesName chapterUrls rangeStart rangeStop now
        oracle).collection = some c →
      c.segments.length = (List.range ((chapterUrls.length + 9) / 10)).countP
        (fun i => (oracle i).isParsed) ∧
      c.lastProcessedChapter = rangeStart +
        (List.range ((chapterUrls.length + 9) / 10)).countP
          (fun i => (oracle i).isParsed) * 10 - 1) ∧
    ((generateGlossarySegments seriesName chapterUrls rangeStart rangeStop now
        oracle).success = true →
      ((generateGlossarySegments seriesName chapterUrls rangeStart rangeStop now
        oracle).collection).isSome = true) := by
  have hrun := segLoop_run oracle seriesName rangeStart chapterUrls.length now
    ((chapterUrls.length + 9) / 10) 0 [] []
    (fun j h1 h2 => hab j (by omega))
  have hlen : (builtSpan oracle seriesName rangeStart chapterUrls.length now 0
      ((chapterUrls.length + 9) / 10)).length =
      (List.range ((chapterUrls.length + 9) / 10)).countP
        (fun i => (oracle i).isParsed) := by
    unfold builtSpan
    rw [filterMap_length_eq_countP, ← List.range_eq_range']
    apply List.countP_congr
    intro i _
    cases h : oracle i <;> simp [segResultOf, h, SegAttemptOut.isParsed]
  simp only [generateGlossarySegments]
  rw [hrun]
  simp only [List.nil_append]
  by_cases hemp : (builtSpan oracle seriesName rangeStart chapterUrls.length now 0
      ((chapterUrls.length + 9) / 10)).isEmpty = true
  · have hcnt : (List.range ((chapterUrls.length + 9) / 10)).countP
        (fun i => (oracle i).isParsed) = 0 := by
      rw [← hlen]
      simpa using hemp
    rw [if_pos hemp]
    refine ⟨by simp [hcnt], ?_, by simp⟩
    intro c hc
    simp at hc
  · have hcnt : 0 < (List.range ((chapterUrls.length + 9) / 10)).countP
        (fun i => (oracle i).isParsed) := by
      rw [← hlen]
      cases hb : builtSpan oracle seriesName rangeStart chapterUrls.length now 0
        ((chapterUrls.length + 9) / 10) with
      | nil => rw [hb] at hemp; simp at hemp
      | cons a l => simp [hb]
    rw [if_neg hemp]
    refine ⟨by simp [hcnt], ?_, by simp⟩
    intro c hc
    have hc' : c = ({
        seriesName := seriesName,
        segments := builtSpan oracle seriesName rangeStart chapterUrls.length now 0
          ((chapterUrls.length + 9) / 10),
        totalChapterRange := { start := rangeStart, stop := rangeStop },
        lastProcessedChapter := rangeStart +
          (builtSpan oracle seriesName rangeStart chapterUrls.length now 0
            ((chapterUrls.length + 9) / 10)).length * 10 - 1,
        createdAt := now, lastModified := now } : GlossaryCollection) := by
      simpa using hc.symm
    subst hc'
    exact ⟨hlen, by rw [hlen]⟩

def c4WitChar : Character :=
  { id := [], japaneseName := "J".toList, englishName := "E".toList,
    description := "D".toList, importance := .major, occurrenceCount := 1,
    lastModified := 0 }

/-- Witness oracle: segment 1 parses, segment 2 is unparseable and
skipped. -/
def c4WitOracle : Nat → SegAttemptOut := fun i =>
  if i == 0 then .parsedChars [c4WitChar] else .parseFailure

theorem generateGlossarySegments_success_iff_witness :
    ((List.replicate 12 "u".toList : List Str).length + 9) / 10 = 2 ∧
    (List.range 2).countP (fun i => (c4WitOracle i).isParsed) = 1 ∧
    ((generateGlossarySegments "S".toList (List.replicate 12 "u".toList) 1 12 0
        c4WitOracle).success = true ↔
      0 < (List.range (((List.replicate 12 "u".toList : List Str).length + 9) / 10)).countP
        (fun i => (c4WitOracle i).isParsed)) ∧
    (∀ c, (generateGlossarySegments "S".toList (List.replicate 12 "u".toList) 1 12 0
        c4WitOracle).collection = some c →
      c.segments.length = (List.range (((List.replicate 12 "u".toList : List Str).length + 9) / 10)).countP
        (fun i => (c4WitOracle i).isParsed) ∧
      c.lastProcessedChapter = 1 +
        (List.range (((List.replicate 12 "u".toList : List Str).length + 9) / 10)).countP
          (fun i => (c4WitOracle i).isParsed) * 10 - 1) :=
  ⟨by decide, by decide,
   (generateGlossarySegments_success_iff "S".toList (List.replicate 12 "u".toList) 1 12 0
     c4WitOracle (fun j hj msg h => by
       have hj2 : j < 2 := by simpa using hj
       interval_cases j <;> simp [c4WitOracle] at h)).1,
   (generateGlossarySegments_success_iff "S".toList (List.replicate 12 "u".toList) 1 12 0
     c4WitOracle (fun j hj msg h => by
       have hj2 : j < 2 := by simpa using hj
       interval_cases j <;> simp [c4WitOracle] at h)).2.1⟩

def c4Char : Character :=
  { id := [], japaneseName := [], englishName := [], description := [],
    importance := .minor, occurrenceCount := 1, lastModified := 0 }

def c4Oracle : Nat → SegAttemptOut := fun _ => .parsedChars [c4Char]

def c4Run : SegGenResult :=
  generateGlossarySegments "S".toList (List.replicate 25 "u".toList) 1 25 0 c4Oracle

/-- **C4 counterexample.** A run over a requested range of 25 chapters
(3 segments, the last covering chapters 21–25) in which every segment
succeeds: success is declared, the segments actually cover chapters up
to 25 (which is also the end of the requested range), yet the returned
`lastProcessedChapter` is `1 + 3·10 − 1 = 30` — not the last chapter
actually covered by the segments that succeeded. -/
theorem c4_counterexample :
    c4Run.success = true ∧
    c4Run.collection.map (fun c => c.segments.length) = some 3 ∧
    c4Run.collection.map (fun c => (c.segments.map (fun s => s.chapterRange.stop)).getLast?) =
      some (some 25) ∧
    c4Run.collection.map (fun c => c.totalChapterRange.stop) = some 25 ∧
    c4Run.collection.map (fun c => c.lastProcessedChapter) = some 30 ∧
    some (30 : Nat) ≠ some (25 : Nat) :=
  ⟨by decide, by decide, by decide, by decide, by decide, by decide⟩

/-- **C3 (amended).** In every abort-free glossary run, the context
payload embedded in the request of segment `n+1` (0-based attempt `n`)
is exactly the *first 30* entries of the flattened character roster of
all previously built segments (each entry carrying the character's
`japaneseName`, `englishName`, `importance`, `description` and the
segment number where last seen); in particular, whenever those segments
hold at most 30 characters in total, the payload includes every one of
their characters. -/
theorem generateGlossarySegments_context (seriesName : Str) (chapterUrls : List Str)
    (rangeStart rangeStop now : Nat) (oracle : Nat → SegAttemptOut) (n : Nat)
    (hab : ∀ j, j < (chapterUrls.length + 9) / 10 → ∀ msg,
      oracle j ≠ .requestAbort msg)
    (hn : n < (chapterUrls.length + 9) / 10) :
    (generateGlossarySegments seriesName chapterUrls rangeStart rangeStop now
        oracle).prompts.get? n =
      some (segmentContextPayload
        (builtSpan oracle seriesName rangeStart chapterUrls.length now 0 n)) ∧
    (∀ pv, segmentContextPayload
        (builtSpan oracle seriesName rangeStart chapterUrls.length now 0 n) = some pv →
      (segmentContextEntries
        (builtSpan oracle seriesName rangeStart chapterUrls.length now 0 n)).length ≤ 30 →
      ∀ seg ∈ builtSpan oracle seriesName rangeStart chapterUrls.length now 0 n,
        ∀ c ∈ seg.characters,
          ({ japaneseName := c.japaneseName, englishName := c.englishName,
             importance := c.importance, description := c.description,
             segmentLastSeen := seg.segmentNumber } : ContextCharacter) ∈ pv) := by
  constructor
  · have hrun := segLoop_run oracle seriesName rangeStart chapterUrls.length now
      ((chapterUrls.length + 9) / 10) 0 [] []
      (fun j h1 h2 => hab j (by omega))
    simp only [generateGlossarySegments]
    rw [hrun]
    have hget : ((List.range' 0 ((chapterUrls.length + 9) / 10)).map
        (fun m => segmentContextPayload ([] ++ builtSpan oracle seriesName rangeStart
          chapterUrls.length now 0 (m - 0)))).get? n =
        some (segmentContextPayload
          (builtSpan oracle seriesName rangeStart chapterUrls.length now 0 n)) := by
      rw [List.get?_map, List.get?_range' 0 1 hn]
      simp
    by_cases hemp : (builtSpan oracle seriesName rangeStart chapterUrls.length now 0
        ((chapterUrls.length + 9) / 10)).isEmpty = true
    · simp only [List.nil_append, if_pos hemp]
      exact hget
    · simp only [List.nil_append, if_neg hemp]
      exact hget
  · intro pv hpv hle seg hseg c hc
    unfold segmentContextPayload at hpv
    by_cases hpe : (builtSpan oracle seriesName rangeStart chapterUrls.length now
        0 n).isEmpty = true
    · rw [if_pos hpe] at hpv
      cases hpv
    · rw [if_neg hpe] at hpv
      have hpv' : pv = segmentContextEntries
          (builtSpan oracle seriesName rangeStart chapterUrls.length now 0 n) := by
        have := hpv.symm
        rw [Option.some.injEq] at this
        rw [this, List.take_of_length_le hle]
      rw [hpv']
      unfold segmentContextEntries
      exact List.mem_flatMap.2 ⟨seg, hseg, List.mem_map_of_mem _ hc⟩

def c3WitChar (nm : Str) : Character :=
  { id := [], japaneseName := nm, englishName := nm, description := "D".toList,
    importance := .minor, occurrenceCount := 1, lastModified := 0 }

def c3WitOracle : Nat → SegAttemptOut := fun i =>
  if i == 0 then .parsedChars [c3WitChar "a".toList]
  else if i == 1 then .parsedChars [c3WitChar "b".toList]
  else .parsedChars []

theorem generateGlossarySegments_context_witness :
    ((2 : Nat) < ((List.replicate 21 "u".toList : List Str).length + 9) / 10 ∧
     (segmentContextEntries (builtSpan c3WitOracle "S".toList 1 21 0 0 2)).length ≤ 30 ∧
     mkSegment "S".toList 1 21 0 0 [c3WitChar "a".toList] ∈
       builtSpan c3WitOracle "S".toList 1 21 0 0 2 ∧
     c3WitChar "a".toList ∈
       (mkSegment "S".toList 1 21 0 0 [c3WitChar "a".toList]).characters) ∧
    (generateGlossarySegments "S".toList (List.replicate 21 "u".toList) 1 21 0
        c3WitOracle).prompts.get? 2 =
      some (segmentContextPayload (builtSpan c3WitOracle "S".toList 1 21 0 0 2)) ∧
    ({ japaneseName := "a".toList, englishName := "a".toList, importance := .minor,
       description := "D".toList, segmentLastSeen := 1 } : ContextCharacter) ∈
      (segmentContextEntries (builtSpan c3WitOracle "S".toList 1 21 0 0 2)).take 30 :=
  ⟨⟨by decide, by decide, by decide, by decide⟩,
   (generateGlossarySegments_context "S".toList (List.replicate 21 "u".toList) 1 21 0
     c3WitOracle 2
     (fun j hj msg h => by
       have hj2 : j < 3 := by simpa using hj
       interval_cases j <;> simp [c3WitOracle] at h)
     (by decide)).1,
   (generateGlossarySegments_context "S".toList (List.replicate 21 "u".toList) 1 21 0
     c3WitOracle 2
     (fun j hj msg h => by
       have hj2 : j < 3 := by simpa using hj
       interval_cases j <;> simp [c3WitOracle] at h)
     (by decide)).2
     ((segmentContextEntries (builtSpan c3WitOracle "S".toList 1 21 0 0 2)).take 30)
     (by decide) (by decide)
     (mkSegment "S".toList 1 21 0 0 [c3WitChar "a".toList]) (by decide)
     (c3WitChar "a".toList) (by decide)⟩

def c3Char (k : Nat) : Character :=
  { id := [], japaneseName := [], englishName := List.replicate k 'e',
    description := [], importance := .minor, occurrenceCount := 1, lastModified := 0 }

/-- Counterexample oracle: segment 1 parses 16 characters, segment 2
parses 15 more — 31 characters across the previously built segments when
segment 3's request is constructed. -/
def c3Oracle : Nat → SegAttemptOut := fun i =>
  if i == 0 then .parsedChars ((List.range 16).map c3Char)
  else if i == 1 then .parsedChars ((List.range 15).map (fun k => c3Char (16 + k)))
  else .parsedChars []

def c3Run : SegGenResult :=
  generateGlossarySegments "S".toList (List.replicate 25 "u".toList) 1 25 0 c3Oracle

def c3Prev : List GlossarySegment := builtSpan c3Oracle "S".toList 1 25 0 0 2

def c3Entry : ContextCharacter :=
  { japaneseName := [], englishName := List.replicate 30 'e', importance := .minor,
    description := [], segmentLastSeen := 2 }

/-- **C3 counterexample.** In a run whose first two segments hold 31
characters in total, the context payload embedded in segment 3's
generation request is capped at the first 30 entries
(`allPreviousCharacters.slice(0, 30)`), so the 31st character — from
previously built segment 2 — is missing from it, contradicting "includes
every character from all previously built segments". -/
theorem c3_counterexample :
    c3Run.prompts.get? 2 = some (segmentContextPayload c3Prev) ∧
    c3Prev.map (fun s => s.segmentNumber) = [1, 2] ∧
    (segmentContextEntries c3Prev).length = 31 ∧
    c3Entry ∈ segmentContextEntries c3Prev ∧
    (segmentContextPayload c3Prev).map (fun pv => decide (c3Entry ∈ pv)) = some false :=
  ⟨by decide, by decide, by decide, by decide, by decide⟩

end WNT
